import Mathlib

/-!
# H.324M adaptation layer 2 and media packetizer

A shallow embedding of `libh324m/src/H324MAL2.cpp` (the AL2 receiver and
sender) and of the packetizer and depacketizer functions of
`app_h324m/app_h324m.c`, followed by the theorems that relate them to the
written specification.

Conventions: a byte (`BYTE`, `unsigned char`) is a natural number; a byte
buffer is a `List Nat`; a pointer into a buffer is an index into the list.
Arithmetic that C performs on a fixed width carries an explicit `%`.
-/

namespace H324M

/-! ## Definitions: AL2 (`H324MAL2.cpp`) -/

/-- Modelled from the spec: the checksum primitive `CRC8` (`crc8.h`) is not
among the sources. The spec gives `add(bytes)` and `calc() -> byte`; a value of
this type is the check byte `Calc()` returns after `Add` was given the bytes.
Every theorem below holds for an arbitrary such function. -/
abbrev CRC8 := List Nat → Nat

/-- Modelled from the spec: `H223MuxSDU` is not among the sources; the spec
describes it as an owned, growable, ordered byte sequence. `Push` appends,
`Length` is the length, `Clean` empties, and the constructor
`H223MuxSDU(ptr,len)` copies `len` bytes. -/
abbrev H223MuxSDU := List Nat

/-- The expression `data[i]` on the pointer returned by `GetPointer()`. For
`i` below `Length()` it is the `i`-th pushed byte. The storage behind the
pushed bytes is not written by any `Push`; `past` is the byte found there. -/
def H223MuxSDU.read (data : H223MuxSDU) (past : Nat) (i : Nat) : Nat :=
  if h : i < data.length then data.get ⟨i, h⟩ else past

/-- State of `H223AL2Receiver`: the flag `useSN` set by the constructor
(an `int` holding 0 or 1), the accumulation buffer `sdu` and the decoded-frame
queue `frameList` (front of the queue first). -/
structure H223AL2Receiver where
  useSN : Nat
  sdu : H223MuxSDU
  frameList : List H223MuxSDU
  deriving DecidableEq, Repr

/-- Constructor `H223AL2Receiver::H223AL2Receiver(int useSequenceNumbers)`. -/
def H223AL2Receiver.new (useSequenceNumbers : Nat) : H223AL2Receiver :=
  { useSN := useSequenceNumbers, sdu := [], frameList := [] }

/-- Method `H223AL2Receiver::Send(BYTE b)`: `sdu.Push(b)`. -/
def H223AL2Receiver.Send (r : H223AL2Receiver) (b : Nat) : H223AL2Receiver :=
  { r with sdu := r.sdu ++ [b] }

/-- Method `H223AL2Receiver::SendClosingFlag()`. The three exits of the source
(`goto clean` twice, and the fall-through after `push_back`) all end in
`sdu.Clean()`. -/
def H223AL2Receiver.SendClosingFlag (crc : CRC8) (past : Nat) (r : H223AL2Receiver) :
    H223AL2Receiver :=
  if r.sdu.length < 1 + r.useSN then
    { r with sdu := [] }
  else
    let data := r.sdu
    let dataLen := r.sdu.length
    if H223MuxSDU.read data past dataLen ≠ crc (data.take (dataLen - r.useSN - 1)) then
      { r with sdu := [] }
    else
      { r with
        frameList := r.frameList ++ [(data.drop r.useSN).take (dataLen - r.useSN - 1)]
        sdu := [] }

/-- Method `H223AL2Receiver::GetFrame()`: the front of the queue, or `NULL`. -/
def H223AL2Receiver.GetFrame (r : H223AL2Receiver) : Option H223MuxSDU :=
  r.frameList.head?

/-- State of `H223AL2Sender`: the flag `useSN`, the one-byte counter `sn` and
the outbound queue `frameList` (front of the queue first). -/
structure H223AL2Sender where
  useSN : Nat
  sn : Nat
  frameList : List H223MuxSDU
  deriving DecidableEq, Repr

/-- Constructor `H223AL2Sender::H223AL2Sender(int useSequenceNumbers)`. -/
def H223AL2Sender.new (useSequenceNumbers : Nat) : H223AL2Sender :=
  { useSN := useSequenceNumbers, sn := 0, frameList := [] }

/-- Method `H223AL2Sender::GetNextPDU()`: the front of the queue, or `NULL`. -/
def H223AL2Sender.GetNextPDU (s : H223AL2Sender) : Option H223MuxSDU :=
  s.frameList.head?

/-- Method `H223AL2Sender::SendPDU(BYTE *buffer,int len)`; `buffer` is the list
of the `len` payload bytes. `sdu->Push(sn++)` pushes the counter and then
increments it in one byte. Returns the `int` result (`true`) and the state. -/
def H223AL2Sender.SendPDU (crc : CRC8) (s : H223AL2Sender) (buffer : List Nat) :
    Bool × H223AL2Sender :=
  let sdu : H223MuxSDU := []
  let step := if s.useSN ≠ 0 then (sdu ++ [s.sn], (s.sn + 1) % 256) else (sdu, s.sn)
  let sdu := step.1 ++ buffer
  let sdu := sdu ++ [crc sdu]
  (true, { s with sn := step.2, frameList := s.frameList ++ [sdu] })

/-- Consecutive `SendPDU` calls, one per payload, in order. -/
def H223AL2Sender.sendAll (crc : CRC8) (s : H223AL2Sender) (payloads : List (List Nat)) :
    H223AL2Sender :=
  payloads.foldl (fun st p => (st.SendPDU crc p).2) s

/-- The experiment of the round-trip property: `SendPDU(P)` on a fresh sender,
the PDU at the front of its queue fed byte by byte with `Send` to a fresh
receiver with the same `useSN`, then one `SendClosingFlag`. The result is the
receiver's decoded-frame queue. -/
def al2RoundTrip (crc : CRC8) (past : Nat) (useSN : Nat) (P : List Nat) : List H223MuxSDU :=
  let sender := ((H223AL2Sender.new useSN).SendPDU crc P).2
  let pdu := sender.GetNextPDU.getD []
  let receiver := pdu.foldl H223AL2Receiver.Send (H223AL2Receiver.new useSN)
  (receiver.SendClosingFlag crc past).frameList

/-- The acceptance rule as the specification words it (section 4.1): with `n`
the accumulated length, the buffer is accepted when `n >= 1 + useSN` and the
checksum over bytes `[0, n-1)` equals the byte at index `n-1`; the SDU
`buffer[useSN, n-1)` is then appended to the queue, which is otherwise left as
it was. -/
def specClosingFlagQueue (crc : CRC8) (r : H223AL2Receiver) : List H223MuxSDU :=
  let n := r.sdu.length
  if 1 + r.useSN ≤ n ∧ crc (r.sdu.take (n - 1)) = r.sdu.getD (n - 1) 0 then
    r.frameList ++ [(r.sdu.drop r.useSN).take (n - 1 - r.useSN)]
  else
    r.frameList


/-! ## Definitions: packetizer and depacketizer (`app_h324m.c`) -/

/-- Frame type `AST_FRAME_VOICE` of Asterisk's `frame.h`. -/
def AST_FRAME_VOICE : Nat := 2

/-- Frame type `AST_FRAME_VIDEO` of Asterisk's `frame.h`. -/
def AST_FRAME_VIDEO : Nat := 3

/-- Format bit `AST_FORMAT_AMR`, `(1 << 13)` at line 41. -/
def AST_FORMAT_AMR : Nat := 1 <<< 13

/-- Format bit `AST_FORMAT_H263` of Asterisk's `frame.h`, `(1 << 19)`. -/
def AST_FORMAT_H263 : Nat := 1 <<< 19

/-- Format bit `AST_FORMAT_H263_PLUS` of Asterisk's `frame.h`, `(1 << 20)`. -/
def AST_FORMAT_H263_PLUS : Nat := 1 <<< 20

/-- The table `blockSize[16]` of line 60 (a table of `short`). -/
def blockSize : List Int := [12, 13, 15, 17, 19, 20, 26, 31, 5, -1, -1, -1, -1, -1, -1, -1]

/-- The fields of `struct ast_frame` the functions use. `data` is the storage
`f->data` points to and `datalen` the declared length `f->datalen`. -/
structure ast_frame where
  frametype : Nat
  subclass : Nat
  datalen : Int
  data : List Nat
  samples : Nat
  deriving DecidableEq, Repr

/-- Media kind of a libh324m frame: `audio` is `MEDIA_AUDIO` and `video` is
`MEDIA_VIDEO`. -/
inductive MediaType where
  | audio
  | video
  deriving DecidableEq, Repr

/-- Codec tag of a libh324m frame: `CODEC_AMR`, `CODEC_H263`, or another tag. -/
inductive MediaCodec where
  | CODEC_AMR
  | CODEC_H263
  | other (tag : Nat)
  deriving DecidableEq, Repr

/-- Modelled from the spec: the libh324m media frame (`h324m.h`) is not among
the sources; the spec describes it as a tagged union of kind, codec and payload
bytes. `data` holds the payload bytes and `length` the length the frame was
created with. -/
structure MediaFrame where
  type : MediaType
  codec : MediaCodec
  data : List Nat
  length : Int
  deriving DecidableEq, Repr

/-- Modelled from the spec: `FrameCreate(type, codec, buffer, len)` of libh324m
is not among the sources. It builds a media frame owning a copy of the `len`
bytes at `buffer`; `mem` is the storage the pointer points into and `ptr` the
index of `buffer` in it. Bytes behind the end of `mem` are not modelled: a
range that leaves `mem` yields the bytes inside `mem` only, while `length`
keeps the requested length. -/
def FrameCreate (type : MediaType) (codec : MediaCodec) (mem : List Nat) (ptr : Nat)
    (len : Int) : MediaFrame :=
  { type := type, codec := codec, data := (mem.drop ptr).take len.toNat, length := len }

/-- The record `struct h324m_packetizer`. The pointers `framedata` and `offset`
are indices into the storage `f->data` of the frame being packetized. -/
structure h324m_packetizer where
  framedata : Nat
  offset : Nat
  framelength : Int
  num : Nat
  max : Nat
  deriving DecidableEq, Repr

/-- The loop of line 196,
`while ((++pak->max<pak->framelength) && (pak->framedata[pak->max] & 0x80)) {}`,
started with `pak->max = max`; the result is the final `pak->max`. Every turn
raises `max` by one and needs `max < framelength` to go on, so the loop ends
within `framelength` turns; `fuel` bounds the number of turns. -/
def tocLoop (framedata : List Nat) (framelength : Int) : Nat → Nat → Nat
  | 0, max => max
  | fuel + 1, max =>
    let max := max + 1
    if (max : Int) < framelength ∧ framedata.getD max 0 &&& 0x80 ≠ 0 then
      tocLoop framedata framelength fuel max
    else
      max

/-- The loop of lines 204-206,
`for (i=0;i<pak->max;i++) pak->framedata[i] = pak->framedata[i+1];`. -/
def shiftToc (framedata : List Nat) (max : Nat) : List Nat :=
  (List.range max).foldl (fun d i => d.set i (d.getD (i + 1) 0)) framedata

/-- The function `init_h324m_packetizer(pak, f)`. Returns the `int` result, the
packetizer record (cleared by `memset` first) and the frame, whose storage the
function writes to. -/
def init_h324m_packetizer (f : ast_frame) : Nat × h324m_packetizer × ast_frame :=
  let pak : h324m_packetizer := { framedata := 0, offset := 0, framelength := 0, num := 0, max := 0 }
  if f.frametype = AST_FRAME_VOICE then
    if f.subclass &&& AST_FORMAT_AMR = 0 then
      (0, pak, f)
    else
      let pak := { pak with framedata := 0, framelength := f.datalen }
      let pak := { pak with max := tocLoop f.data pak.framelength (pak.framelength.toNat + 1) pak.max }
      if (pak.max : Int) ≥ pak.framelength then
        (0, pak, f)
      else
        let pak := { pak with offset := pak.framedata + pak.max + 1 }
        (1, pak, { f with data := shiftToc f.data pak.max })
  else if f.frametype = AST_FRAME_VIDEO then
    if f.subclass &&& AST_FORMAT_H263 ≠ 0 then
      let pak := { pak with framedata := 4, framelength := f.datalen - 4 }
      (1, { pak with max := 1 }, f)
    else if f.subclass &&& AST_FORMAT_H263_PLUS ≠ 0 then
      let pak := { pak with framedata := 0, framelength := f.datalen }
      let p := f.data.getD 0 0 &&& 0x04
      let v := f.data.getD 0 0 &&& 0x02
      let plen := ((((f.data.getD 0 0) &&& 0x1) <<< 5) ||| (f.data.getD 1 0 >>> 3)) % 256
      let pak := { pak with framedata := pak.framedata + (2 + plen),
                            framelength := pak.framelength - (2 + plen) }
      let pak := if v ≠ 0 then
          { pak with framedata := pak.framedata + 1, framelength := pak.framelength - 1 }
        else pak
      if p ≠ 0 then
        let pak := { pak with framedata := pak.framedata - 2, framelength := pak.framelength + 2 }
        let data := (f.data.set pak.framedata 0).set (pak.framedata + 1) 0
        (1, { pak with max := 1 }, { f with data := data })
      else
        (1, { pak with max := 1 }, f)
    else
      (0, pak, f)
  else
    (0, pak, f)

/-- The conversion `unsigned bs = blockSize[mode]` of line 276 (32-bit
`unsigned`). -/
def blockSizeUnsigned (mode : Nat) : Nat :=
  ((blockSize.getD mode 0) % 4294967296).toNat

/-- The function `create_h324m_frame(pak, f)`. Returns the unit (`none` for
`NULL`), the packetizer record and the frame, whose storage the audio branch
writes to. `pak->num++` increments on both outcomes of the comparison.
`pak->offset += bs` moves the pointer by the 32-bit `unsigned` value `bs`, and
`pak->offset - bs - 1` is the offset before the move, minus one. The header
byte `(mode << 3) | 0x04` is at most `0x7C` and fits a byte. The function
describes the call while its accesses stay inside the storage of the frame;
`createInBounds` tells whether they do, and `packetizerLoopChecked` ends the
run where they do not. -/
def create_h324m_frame (pak : h324m_packetizer) (f : ast_frame) :
    Option MediaFrame × h324m_packetizer × ast_frame :=
  let num := pak.num
  let pak := { pak with num := pak.num + 1 }
  if num = pak.max then
    (none, pak, f)
  else if f.frametype = AST_FRAME_VOICE then
    if f.subclass &&& AST_FORMAT_AMR = 0 then
      (none, pak, f)
    else
      let mode := (f.data.getD (pak.framedata + (pak.num - 1)) 0 >>> 3) &&& 0x0f
      let bs := blockSizeUnsigned mode
      let data := f.data.set (pak.offset - 1) ((mode <<< 3) ||| 0x04)
      let pak := { pak with offset := pak.offset + bs }
      (some (FrameCreate .audio .CODEC_AMR data (pak.offset - bs - 1)
              (((bs + 1) % 4294967296 : Nat) : Int)),
        pak, { f with data := data })
  else if f.frametype = AST_FRAME_VIDEO then
    (some (FrameCreate .video .CODEC_H263 f.data pak.framedata pak.framelength), pak, f)
  else
    (none, pak, f)

/-- The callers' loop (lines 515 and 731),
`while ((frame=create_h324m_frame(&pak,f))!=NULL) { ... }`: the units in the
order produced, and the frame as the loop leaves it. The loop stops at the
first `NULL`; `fuel` bounds the number of calls. -/
def packetizerLoop : Nat → h324m_packetizer → ast_frame → List MediaFrame × ast_frame
  | 0, _, f => ([], f)
  | fuel + 1, pak, f =>
    match create_h324m_frame pak f with
    | (none, _, f1) => ([], f1)
    | (some u, pak1, f1) =>
      let rest := packetizerLoop fuel pak1 f1
      (u :: rest.1, rest.2)

/-- The callers' use of the packetizer (lines 513-520 and 729-736):
`if (init_h324m_packetizer(&pak,f)) while (...create_h324m_frame...)`. The
loop makes `pak.max + 1` calls when started with `num = 0`; `extra` is fuel
beyond that. -/
def packetize (extra : Nat) (f : ast_frame) : List MediaFrame × ast_frame :=
  let r := init_h324m_packetizer f
  if r.1 = 0 then ([], r.2.2) else packetizerLoop (r.2.1.max + 1 + extra) r.2.1 r.2.2

/-- The record `struct video_tr`: `unsigned char tr; unsigned int samples;`. -/
structure video_tr where
  tr : Nat
  samples : Nat
  deriving DecidableEq, Repr

/-- The function `create_ast_frame(frame, vtr)`. Returns the frame built
(`none` for `NULL`; `data` lists the bytes written from `send->data` on) and
the `video_tr` record. `FrameGetLength` is read into an `unsigned int`; the
sample count is computed in `int` and stored in an `unsigned int`, and
`framelength-2` is an `unsigned int` subtraction, which wraps below 2. Each
`memcpy` copies the bytes the unit holds, at most the number asked for: a
`memcpy` that asks for more bytes than the unit holds leaves the unit in C and
is outside this function. -/
def create_ast_frame (frame : MediaFrame) (vtr : video_tr) : Option ast_frame × video_tr :=
  let framedata := frame.data
  let framelength : Nat := (frame.length % 4294967296).toNat
  match frame.type with
  | .audio =>
    if frame.codec ≠ .CODEC_AMR then
      (none, vtr)
    else
      (some { frametype := AST_FRAME_VOICE
              subclass := AST_FORMAT_AMR
              datalen := framelength
              data := [0xF0, (framedata.getD 0 0 &&& 0x78) ||| 0x04] ++ framedata.take framelength
              samples := 160 }, vtr)
  | .video =>
    if frame.codec ≠ .CODEC_H263 then
      (none, vtr)
    else if framedata.getD 0 0 = 0 ∧ framedata.getD 1 0 = 0 then
      let tr := (((framedata.getD 0 0 <<< 6) &&& 0xC0) ||| ((framedata.getD 1 0 >>> 2) &&& 0x3F)) % 256
      let samples : Int :=
        if tr < vtr.tr then ((256 + (tr : Int)) - vtr.tr) * 1000 else ((tr : Int) - vtr.tr) * 1000
      let vtr : video_tr := { tr := tr, samples := (samples % 4294967296).toNat }
      (some { frametype := AST_FRAME_VIDEO
              subclass := AST_FORMAT_H263_PLUS ||| 1
              datalen := framelength
              data := [0x04, 0x00] ++
                (framedata.drop 2).take ((((framelength : Int) - 2) % 4294967296).toNat)
              samples := vtr.samples }, vtr)
    else
      (some { frametype := AST_FRAME_VIDEO
              subclass := AST_FORMAT_H263_PLUS ||| 0
              datalen := framelength + 2
              data := [0x00, 0x00] ++ framedata.take framelength
              samples := vtr.samples }, vtr)

/-- Result of call number `k + 1` in a sequence of `create_h324m_frame` calls
on one packetizer context. -/
def nthCreateCall : Nat → h324m_packetizer → ast_frame → Option MediaFrame
  | 0, pak, f => (create_h324m_frame pak f).1
  | k + 1, pak, f =>
    let r := create_h324m_frame pak f
    nthCreateCall k r.2.1 r.2.2

/-- The continuation test on a TOC entry: top bit `0x80` set. -/
def tocContinues (e : Nat) : Bool := e &&& 0x80 ≠ 0

/-- The number of TOC entries of an AMR voice frame as the specification words
it (section 4.3): the entries follow the first byte of the frame and are
counted up to and including the first one without the continuation bit; the
count is zero when no entry without the continuation bit lies within the
frame. -/
def specTocEntries (bytes : List Nat) : Nat :=
  let toc := bytes.drop 1
  if toc.all tocContinues then 0 else (toc.takeWhile tocContinues).length + 1

/-- AMR mode of a TOC entry, `entry >> 3 & 0x0f` (line 274). -/
def tocMode (e : Nat) : Nat := (e >>> 3) &&& 0x0f

/-- The unit length table as the specification words it (section 4.3): byte
lengths 12, 13, 15, 17, 19, 20, 26, 31 for modes 0 to 7 and 5 for mode 8. -/
def specAmrLength (mode : Nat) : Nat :=
  [12, 13, 15, 17, 19, 20, 26, 31, 5].getD mode 0

/-- The elementary units of an AMR voice frame as the specification words them:
one unit per TOC entry, made of the header byte (mode bits and the marker
`0x04`) and the next `specAmrLength mode` bytes of the payload that follows the
TOC. -/
def specAmrUnits : List Nat → List Nat → List MediaFrame
  | [], _ => []
  | e :: toc, payload =>
    { type := .audio
      codec := .CODEC_AMR
      data := ((tocMode e <<< 3) ||| 0x04) :: payload.take (specAmrLength (tocMode e))
      length := ((specAmrLength (tocMode e) + 1 : Nat) : Int) } ::
      specAmrUnits toc (payload.drop (specAmrLength (tocMode e)))

/-- An AMR voice frame with the given bytes (`datalen` is their number). -/
def amrVoiceFrame (bytes : List Nat) : ast_frame :=
  { frametype := AST_FRAME_VOICE, subclass := AST_FORMAT_AMR, datalen := bytes.length,
    data := bytes, samples := 0 }

/-- An H.263+ video frame with the given bytes (`datalen` is their number). -/
def h263pVideoFrame (bytes : List Nat) : ast_frame :=
  { frametype := AST_FRAME_VIDEO, subclass := AST_FORMAT_H263_PLUS, datalen := bytes.length,
    data := bytes, samples := 0 }

/-- The temporal reference of an H.263 picture header: after the two zero
bytes of the picture start code, the 2 least significant bits of the 3rd byte
and the 6 most significant bits of the 4th byte (comments of lines 119-120). -/
def pictureTemporalReference (unit : List Nat) : Nat :=
  (((unit.getD 2 0 <<< 6) &&& 0xC0) ||| ((unit.getD 3 0 >>> 2) &&& 0x3F)) % 256

/-- The sample count as the specification words it (section 4.4):
`(current_tr - previous_tr) mod 256 * 1000`. -/
def specSamples (cur prev : Nat) : Nat :=
  (((cur : Int) - prev) % 256).toNat * 1000

/-- The frames `create_h324m_frame` builds a unit for. -/
def producesUnits (f : ast_frame) : Prop :=
  (f.frametype = AST_FRAME_VOICE ∧ f.subclass &&& AST_FORMAT_AMR ≠ 0) ∨
    f.frametype = AST_FRAME_VIDEO

/-- The TOC entries of an AMR voice frame: the `specTocEntries` bytes that
follow the first byte. -/
def tocEntries (bytes : List Nat) : List Nat :=
  (bytes.drop 1).take (specTocEntries bytes)

/-- The bytes of an AMR voice frame that follow its TOC. -/
def amrPayload (bytes : List Nat) : List Nat :=
  bytes.drop (1 + specTocEntries bytes)

/-- The unit contents the specification asks for (section 4.3): the units
are the `specAmrUnits` of the frame's TOC and payload, and every unit holds as
many bytes as its length says (the header byte and exactly the table length of
payload bytes). -/
def amrUnitsAsSpecified (bytes : List Nat) (units : List MediaFrame) : Prop :=
  units = specAmrUnits (tocEntries bytes) (amrPayload bytes) ∧
    ∀ u ∈ units, (u.data.length : Int) = u.length

instance (bytes : List Nat) (units : List MediaFrame) :
    Decidable (amrUnitsAsSpecified bytes units) := by
  unfold amrUnitsAsSpecified
  infer_instance


/-- The P bit of an H.263+ payload header as the specification words it:
`b[0] & 0x04`. -/
def specPBit (b : List Nat) : Nat := b.getD 0 0 &&& 0x04

/-- The V bit of an H.263+ payload header as the specification words it:
`b[0] & 0x02`. -/
def specVBit (b : List Nat) : Nat := b.getD 0 0 &&& 0x02

/-- The PLEN field of an H.263+ payload header as the specification words it:
the low bit of `b[0]` followed by the top five bits of `b[1]`. -/
def specPlen (b : List Nat) : Nat := ((b.getD 0 0 &&& 0x1) <<< 5) ||| (b.getD 1 0 >>> 3)

/-- The number of header bytes the specification skips: `2 + PLEN`, plus one
more if V is set. -/
def specSkip (b : List Nat) : Nat := 2 + specPlen b + (if specVBit b ≠ 0 then 1 else 0)


/-- The payload of a telephony frame taken over its declared length: the
first `datalen` bytes from `f->data` on. -/
def ast_frame.payload (f : ast_frame) : List Nat :=
  f.data.take f.datalen.toNat

/-- The voice payload the specification asks for (section 4.4) for an audio
unit with bytes `u`: the CMR byte `0xF0`, the header byte made of the mode bits
of `u[0]` and the marker `0x04`, then all the bytes of `u`. -/
def specVoicePayload (u : List Nat) : List Nat :=
  [0xF0, (u.getD 0 0 &&& 0x78) ||| 0x04] ++ u

/-- An audio unit as the session hands it to `create_ast_frame`: the bytes `u`
and their number as length. -/
def audioUnit (codec : MediaCodec) (u : List Nat) : MediaFrame :=
  { type := .audio, codec := codec, data := u, length := u.length }

/-- The bound under which every unit of an AMR voice frame lies within the
frame's bytes: `1 + max + (sum over the TOC entries of blockSize[mode]) <= L`,
with the table values as the code reads them. -/
def unitsWithinFrame (bytes : List Nat) : Prop :=
  1 + specTocEntries bytes +
    ((tocEntries bytes).map (fun e => blockSizeUnsigned (tocMode e))).sum ≤ bytes.length

instance (bytes : List Nat) : Decidable (unitsWithinFrame bytes) := by
  unfold unitsWithinFrame
  infer_instance


/-- Whether every access of one `create_h324m_frame(pak, f)` call stays
inside the storage of the frame. In the AMR branch the call reads
`pak->framedata[pak->num-1]`, writes `pak->offset[-1]` and hands `bs + 1` bytes
from `pak->offset - bs - 1` on to `FrameCreate`; in the video branch it hands
`pak->framelength` bytes from `pak->framedata` on to `FrameCreate`. An access
outside the storage is an access through a pointer outside the buffer in C. -/
def createInBounds (pak : h324m_packetizer) (f : ast_frame) : Bool :=
  if pak.num = pak.max then
    true
  else if f.frametype = AST_FRAME_VOICE then
    if f.subclass &&& AST_FORMAT_AMR = 0 then
      true
    else
      let mode := (f.data.getD (pak.framedata + pak.num) 0 >>> 3) &&& 0x0f
      let bs := blockSizeUnsigned mode
      decide (pak.framedata + pak.num < f.data.length ∧
        1 ≤ pak.offset ∧ pak.offset - 1 < f.data.length ∧
        pak.offset - 1 + (bs + 1) % 4294967296 ≤ f.data.length)
  else if f.frametype = AST_FRAME_VIDEO then
    decide (0 ≤ pak.framelength ∧ pak.framedata + pak.framelength.toNat ≤ f.data.length)
  else
    true

/-- The callers' loop (lines 515 and 731) with the accesses checked: the units
handed over in the order produced and the frame as the loop leaves it. The
frame is `none` when a call made an access outside the storage of the frame;
the units are then those produced before that call. The loop stops at the
first `NULL`; `fuel` bounds the number of calls. -/
def packetizerLoopChecked :
    Nat → h324m_packetizer → ast_frame → List MediaFrame × Option ast_frame
  | 0, _, f => ([], some f)
  | fuel + 1, pak, f =>
    if createInBounds pak f then
      match create_h324m_frame pak f with
      | (none, _, f1) => ([], some f1)
      | (some u, pak1, f1) =>
        let rest := packetizerLoopChecked fuel pak1 f1
        (u :: rest.1, rest.2)
    else
      ([], none)

/-- The callers' use of the packetizer (lines 513-520 and 729-736) with the
accesses of `create_h324m_frame` checked. On an AMR voice frame whose `datalen`
is the number of its bytes the accesses of `init_h324m_packetizer` stay inside
the frame: the TOC scan and the shift touch indices up to `max`, which is below
`framelength`. -/
def packetizeChecked (extra : Nat) (f : ast_frame) : List MediaFrame × Option ast_frame :=
  let r := init_h324m_packetizer f
  if r.1 = 0 then ([], some r.2.2)
  else packetizerLoopChecked (r.2.1.max + 1 + extra) r.2.1 r.2.2

/-! ## Theorems: AL2 -/

theorem foldl_Send (bs : List Nat) (r : H223AL2Receiver) :
    bs.foldl H223AL2Receiver.Send r = { r with sdu := r.sdu ++ bs } := by
  induction bs generalizing r with
  | nil => simp
  | cons b bs ih => simp [ih, H223AL2Receiver.Send]

theorem read_length (data : H223MuxSDU) (past : Nat) :
    H223MuxSDU.read data past data.length = past := by
  simp [H223MuxSDU.read]

/-- What `SendClosingFlag` does to the queue: the buffer is accepted when it is
long enough and the byte read at index `dataLen` equals the checksum of the
first `dataLen - useSN - 1` bytes. -/
theorem closingFlag_frameList (crc : CRC8) (past u : Nat) (buf : H223MuxSDU)
    (Q : List H223MuxSDU) :
    (H223AL2Receiver.SendClosingFlag crc past ⟨u, buf, Q⟩).frameList =
      if 1 + u ≤ buf.length ∧ past = crc (buf.take (buf.length - u - 1)) then
        Q ++ [(buf.drop u).take (buf.length - u - 1)]
      else Q := by
  unfold H223AL2Receiver.SendClosingFlag
  simp only [read_length]
  by_cases h1 : buf.length < 1 + u
  · have h1n : ¬ (1 + u ≤ buf.length) := by omega
    simp [h1, h1n]
  · have h1p : 1 + u ≤ buf.length := by omega
    by_cases h2 : past = crc (buf.take (buf.length - u - 1))
    · simp [h1, h1p, ← h2]
    · simp [h1, h1p, h2]

theorem roundTrip_eq (crc : CRC8) (past useSN : Nat) (P : List Nat) :
    al2RoundTrip crc past useSN P =
      (H223AL2Receiver.SendClosingFlag crc past
        ⟨useSN, (if useSN ≠ 0 then [0] else []) ++ P ++
          [crc ((if useSN ≠ 0 then [0] else []) ++ P)], []⟩).frameList := by
  unfold al2RoundTrip
  simp only [H223AL2Sender.SendPDU, H223AL2Sender.new, H223AL2Sender.GetNextPDU,
    foldl_Send, H223AL2Receiver.new]
  by_cases h : useSN = 0 <;> simp [h]

theorem SendPDU_frameList (crc : CRC8) (s : H223AL2Sender) (P : List Nat) :
    (s.SendPDU crc P).2.frameList =
      s.frameList ++ [if s.useSN ≠ 0 then [s.sn] ++ P ++ [crc ([s.sn] ++ P)]
        else P ++ [crc P]] := by
  by_cases h : s.useSN = 0 <;> simp [H223AL2Sender.SendPDU, h]

theorem SendPDU_sn (crc : CRC8) (s : H223AL2Sender) (P : List Nat) :
    (s.SendPDU crc P).2.sn = if s.useSN ≠ 0 then (s.sn + 1) % 256 else s.sn := by
  by_cases h : s.useSN = 0 <;> simp [H223AL2Sender.SendPDU, h]

theorem SendPDU_useSN (crc : CRC8) (s : H223AL2Sender) (P : List Nat) :
    (s.SendPDU crc P).2.useSN = s.useSN := by
  simp [H223AL2Sender.SendPDU]

theorem sendAll_heads (crc : CRC8) (payloads : List (List Nat)) (s : H223AL2Sender)
    (hu : s.useSN ≠ 0) (hsn : s.sn < 256) :
    (s.sendAll crc payloads).frameList.map List.head? =
      s.frameList.map List.head? ++
        (List.range payloads.length).map (fun i => some ((s.sn + i) % 256)) := by
  induction payloads generalizing s with
  | nil => simp [H223AL2Sender.sendAll]
  | cons p ps ih =>
    have hu2 : (s.SendPDU crc p).2.useSN ≠ 0 := by rw [SendPDU_useSN]; exact hu
    have hsn2 : (s.SendPDU crc p).2.sn < 256 := by
      rw [SendPDU_sn]; simp only [hu, ne_eq, not_false_eq_true, if_true]; omega
    have step : s.sendAll crc (p :: ps) = (s.SendPDU crc p).2.sendAll crc ps := by
      simp [H223AL2Sender.sendAll]
    rw [step, ih _ hu2 hsn2, SendPDU_frameList, SendPDU_sn]
    simp only [hu, ne_eq, not_false_eq_true, if_true, List.map_append, List.map_cons,
      List.map_nil, List.length_cons, List.range_succ_eq_map, List.map_map,
      List.append_assoc]
    congr 1
    simp only [List.singleton_append, List.cons_append, List.head?_cons, List.nil_append,
      Nat.add_zero, Nat.mod_eq_of_lt hsn, List.cons.injEq, true_and]
    apply List.map_congr_left
    intro i _
    simp only [Function.comp, Nat.succ_eq_add_one]
    congr 1
    omega

/-- C1 (AL2 round trip). The code does not guarantee the round trip: the queue
of the receiver after `SendPDU(P)`, `Send` of every PDU byte and one
`SendClosingFlag` holds the single SDU `P` only when the byte stored behind the
accumulated bytes (`data[dataLen]`, no byte of the PDU) happens to equal the
checksum of the first `dataLen - useSN - 1` bytes, and is empty otherwise. -/
theorem C1_roundTrip_decided_by_byte_past_buffer (crc : CRC8) (past : Nat) (P : List Nat) :
    al2RoundTrip crc past 0 P = (if past = crc P then [P] else []) ∧
    al2RoundTrip crc past 1 P = (if past = crc ((0 :: P).take P.length) then [P] else []) ∧
    al2RoundTrip crc (crc P + 1) 0 P = [] ∧
    al2RoundTrip crc (crc ((0 :: P).take P.length) + 1) 1 P = [] := by
  have e : (0 :: (P ++ [crc (0 :: P)])).take P.length = (0 :: P).take P.length := by
    rw [← List.cons_append, List.take_append_of_le_length (by simp)]
  refine ⟨?_, ?_, ?_, ?_⟩
  · rw [roundTrip_eq, closingFlag_frameList]; simp
  · rw [roundTrip_eq, closingFlag_frameList]; simp [e]
  · rw [roundTrip_eq, closingFlag_frameList]; simp
  · rw [roundTrip_eq, closingFlag_frameList]; simp [e]

/-- C2 (receiver acceptance rule). `SendClosingFlag` accepts on the byte read at
index `dataLen` (behind the buffer) and the checksum of the first
`dataLen - useSN - 1` bytes, not on `buffer[n-1]` and the checksum of
`buffer[0, n-1)`: for every checksum function, every value of the byte behind
the buffer, every `useSN` and every queue there is a buffer on which the queue
left by the code differs from the queue the specified rule leaves. -/
theorem C2_closingFlag_differs_from_specified_rule (crc : CRC8) (past useSN : Nat)
    (Q : List H223MuxSDU) :
    (∀ buf : H223MuxSDU,
      (H223AL2Receiver.SendClosingFlag crc past ⟨useSN, buf, Q⟩).frameList =
        if 1 + useSN ≤ buf.length ∧ past = crc (buf.take (buf.length - useSN - 1)) then
          Q ++ [(buf.drop useSN).take (buf.length - useSN - 1)]
        else Q) ∧
    ∃ buf : H223MuxSDU,
      (H223AL2Receiver.SendClosingFlag crc past ⟨useSN, buf, Q⟩).frameList ≠
        specClosingFlagQueue crc ⟨useSN, buf, Q⟩ := by
  refine ⟨fun buf => closingFlag_frameList crc past useSN buf Q, ?_⟩
  have hle : 1 + useSN ≤ useSN + 1 := by omega
  by_cases hp : past = crc []
  · refine ⟨List.replicate useSN 0 ++ [crc (List.replicate useSN 0) + 1], ?_⟩
    rw [closingFlag_frameList]
    simp [specClosingFlagQueue, hp, List.getD_eq_getElem?_getD, hle]
  · refine ⟨List.replicate useSN 0 ++ [crc (List.replicate useSN 0)], ?_⟩
    rw [closingFlag_frameList]
    simp [specClosingFlagQueue, hp, List.getD_eq_getElem?_getD, hle]

/-- C3 (sender PDU layout). `SendPDU` returns success, appends to the queue one
SDU `[sn] ++ P ++ [crc ([sn] ++ P)]` (sequencing on) or `P ++ [crc P]`
(sequencing off) behind the SDUs already queued, keeps `useSN`, and changes the
counter only when sequencing is on. -/
theorem C3_SendPDU_layout (crc : CRC8) (s : H223AL2Sender) (P : List Nat) :
    (s.SendPDU crc P).1 = true ∧
    (s.SendPDU crc P).2.frameList =
      s.frameList ++ [if s.useSN ≠ 0 then [s.sn] ++ P ++ [crc ([s.sn] ++ P)]
        else P ++ [crc P]] ∧
    (s.SendPDU crc P).2.sn = (if s.useSN ≠ 0 then (s.sn + 1) % 256 else s.sn) ∧
    (s.SendPDU crc P).2.useSN = s.useSN :=
  ⟨rfl, SendPDU_frameList crc s P, SendPDU_sn crc s P, SendPDU_useSN crc s P⟩

/-- C4 (sequence numbering). With `useSN` enabled, two consecutive `SendPDU`
calls append PDUs whose leading bytes are `sn` and `(sn + 1) % 256`; and the
PDUs built by a fresh sender for a list of payloads have the leading bytes
`0 % 256, 1 % 256, 2 % 256, ...` in order (the k-th has `(k-1) % 256`). -/
theorem C4_sequence_numbers (crc : CRC8) (useSN sn : Nat) (Q : List H223MuxSDU)
    (P1 P2 : List Nat) (payloads : List (List Nat)) (h : useSN ≠ 0) :
    (((H223AL2Sender.mk useSN sn Q).SendPDU crc P1).2.SendPDU crc P2).2.frameList =
      Q ++ [sn :: (P1 ++ [crc (sn :: P1)]),
            ((sn + 1) % 256) :: (P2 ++ [crc (((sn + 1) % 256) :: P2)])] ∧
    ((H223AL2Sender.new useSN).sendAll crc payloads).frameList.map List.head? =
      (List.range payloads.length).map (fun i => some (i % 256)) := by
  constructor
  · rw [SendPDU_frameList, SendPDU_frameList, SendPDU_sn, SendPDU_useSN]
    simp [h]
  · have hs := sendAll_heads crc payloads (H223AL2Sender.new useSN) h (by simp [H223AL2Sender.new])
    simpa [H223AL2Sender.new] using hs

/-- Witness for C4: a counter at 255 wraps to 0, and the first three PDUs of a
fresh sender lead with 0, 1, 2. -/
theorem C4_sequence_numbers_witness :
    (((H223AL2Sender.mk 1 255 []).SendPDU (fun _ => 0) [7]).2.SendPDU (fun _ => 0) [8]).2.frameList =
      [] ++ [255 :: ([7] ++ [0]), ((255 + 1) % 256) :: ([8] ++ [0])] ∧
    ((H223AL2Sender.new 1).sendAll (fun _ => 0) [[7], [8], [9]]).frameList.map List.head? =
      (List.range [[7], [8], [9]].length).map (fun i => some (i % 256)) :=
  C4_sequence_numbers (fun _ => 0) 1 255 [] [7] [8] [[7], [8], [9]] (by decide)

/-! ## Theorems: packetizer -/

theorem create_num (pak : h324m_packetizer) (f : ast_frame) :
    (create_h324m_frame pak f).2.1.num = pak.num + 1 ∧
    (create_h324m_frame pak f).2.1.max = pak.max := by
  unfold create_h324m_frame
  simp only
  split_ifs <;> simp

theorem create_frame (pak : h324m_packetizer) (f : ast_frame) :
    (create_h324m_frame pak f).2.2.frametype = f.frametype ∧
    (create_h324m_frame pak f).2.2.subclass = f.subclass := by
  unfold create_h324m_frame
  simp only
  split_ifs <;> simp

theorem create_isSome (pak : h324m_packetizer) (f : ast_frame) (hf : producesUnits f) :
    (create_h324m_frame pak f).1.isSome = decide (pak.num ≠ pak.max) := by
  unfold create_h324m_frame
  simp only
  rcases hf with ⟨h1, h2⟩ | h1
  · by_cases h : pak.num = pak.max <;> simp [h, h1, h2]
  · have h3 : AST_FRAME_VIDEO ≠ AST_FRAME_VOICE := by decide
    by_cases h : pak.num = pak.max <;> simp [h, h1, h3]

theorem producesUnits_create (pak : h324m_packetizer) (f : ast_frame) (hf : producesUnits f) :
    producesUnits (create_h324m_frame pak f).2.2 := by
  unfold producesUnits
  rw [(create_frame pak f).1, (create_frame pak f).2]
  exact hf

theorem nthCreateCall_isSome (k : Nat) (pak : h324m_packetizer) (f : ast_frame)
    (hf : producesUnits f) :
    (nthCreateCall k pak f).isSome = decide (pak.num + k ≠ pak.max) := by
  induction k generalizing pak f with
  | zero => simpa [nthCreateCall] using create_isSome pak f hf
  | succ k ih =>
    simp only [nthCreateCall]
    rw [ih _ _ (producesUnits_create pak f hf), (create_num pak f).1, (create_num pak f).2]
    congr 2
    omega

theorem packetizerLoop_length (n : Nat) (pak : h324m_packetizer) (f : ast_frame)
    (hf : producesUnits f) (extra : Nat) (hn : pak.num + n = pak.max) :
    (packetizerLoop (n + 1 + extra) pak f).1.length = n := by
  induction n generalizing pak f with
  | zero =>
    have h := create_isSome pak f hf
    have hnum : pak.num = pak.max := by omega
    rw [Nat.zero_add, Nat.add_comm, packetizerLoop]
    rcases hc : create_h324m_frame pak f with ⟨u, p1, f1⟩
    rw [hc] at h
    cases u with
    | none => rfl
    | some u => simp [hnum] at h
  | succ n ih =>
    have h := create_isSome pak f hf
    have hnum : pak.num ≠ pak.max := by omega
    have e : n + 1 + 1 + extra = (n + 1 + extra) + 1 := by omega
    rw [e, packetizerLoop]
    have hp := producesUnits_create pak f hf
    have hnm := create_num pak f
    rcases hc : create_h324m_frame pak f with ⟨u, p1, f1⟩
    rw [hc] at h hp hnm
    cases u with
    | none => simp [hnum] at h
    | some u =>
      simp only [List.length_cons]
      rw [ih p1 f1 hp (by simp only at hnm; omega)]


theorem tocLoop_eq (data : List Nat) (fuel m : Nat) (h1 : 1 ≤ fuel)
    (h2 : data.length + 1 ≤ fuel + m) :
    tocLoop data (data.length : Int) fuel m =
      m + 1 + ((data.drop (m + 1)).takeWhile tocContinues).length := by
  induction fuel generalizing m with
  | zero => omega
  | succ fuel ih =>
    unfold tocLoop
    simp only
    by_cases hlt : m + 1 < data.length
    · have hd : data.drop (m + 1) = data[m + 1] :: data.drop (m + 1 + 1) :=
        List.drop_eq_getElem_cons hlt
      have hg : data.getD (m + 1) 0 = data[m + 1] := by
        simp [List.getD_eq_getElem?_getD, List.getElem?_eq_getElem hlt]
      have hc : ((m + 1 : Nat) : Int) < (data.length : Int) := by exact_mod_cast hlt
      rw [hd, hg]
      by_cases hb : data[m + 1] &&& 0x80 ≠ 0
      · have ht : tocContinues data[m + 1] = true := by simp [tocContinues, hb]
        rw [if_pos ⟨hc, hb⟩, ih (m + 1) (by omega) (by omega), List.takeWhile_cons, ht]
        simp only [if_true, List.length_cons]
        omega
      · have ht : tocContinues data[m + 1] = false := by
          simp only [tocContinues, decide_eq_false_iff_not]; exact hb
        rw [if_neg (fun h => hb h.2), List.takeWhile_cons, ht]
        simp
    · have hc : ¬ ((m + 1 : Nat) : Int) < (data.length : Int) := by
        intro h; exact hlt (by exact_mod_cast h)
      rw [if_neg (fun h => hc h.1), List.drop_eq_nil_of_le (by omega)]
      simp

theorem all_iff_takeWhile_length (p : Nat → Bool) (l : List Nat) :
    l.all p = true ↔ (l.takeWhile p).length = l.length := by
  induction l with
  | nil => simp
  | cons a l ih =>
    by_cases ha : p a = true
    · simp [List.takeWhile_cons, ha, ih]
    · simp [List.takeWhile_cons, ha]

theorem takeWhile_length_le (p : Nat → Bool) (l : List Nat) :
    (l.takeWhile p).length ≤ l.length := by
  induction l with
  | nil => simp
  | cons a l ih =>
    by_cases ha : p a = true
    · simp [List.takeWhile_cons, ha, ih]
    · simp [List.takeWhile_cons, ha]

/-- The value `init_h324m_packetizer` computes for `pak->max` on a voice frame. -/
theorem init_amr (f : ast_frame) (hv : f.frametype = AST_FRAME_VOICE)
    (ha : f.subclass &&& AST_FORMAT_AMR ≠ 0) (hl : f.datalen = f.data.length) :
    init_h324m_packetizer f =
      if f.data.length ≤ 1 + ((f.data.drop 1).takeWhile tocContinues).length then
        (0, ⟨0, 0, f.datalen, 0, 1 + ((f.data.drop 1).takeWhile tocContinues).length⟩, f)
      else
        (1, ⟨0, 1 + ((f.data.drop 1).takeWhile tocContinues).length + 1, f.datalen, 0,
              1 + ((f.data.drop 1).takeWhile tocContinues).length⟩,
          { f with data :=
              (shiftToc f.data (1 + ((f.data.drop 1).takeWhile tocContinues).length)) }) := by
  unfold init_h324m_packetizer
  simp only [hv, ha, if_true, if_false]
  rw [hl, Int.toNat_ofNat, tocLoop_eq f.data _ 0 (by omega) (by omega)]
  simp only [Nat.zero_add, ge_iff_le, Nat.cast_le]

theorem specTocEntries_eq (bytes : List Nat) :
    specTocEntries bytes =
      if bytes.length ≤ 1 + ((bytes.drop 1).takeWhile tocContinues).length then 0
      else 1 + ((bytes.drop 1).takeWhile tocContinues).length := by
  unfold specTocEntries
  simp only
  have hle := takeWhile_length_le tocContinues (bytes.drop 1)
  have hiff := all_iff_takeWhile_length tocContinues (bytes.drop 1)
  rw [List.length_drop] at hle hiff
  by_cases hall : (bytes.drop 1).all tocContinues = true
  · rw [if_pos hall, if_pos]
    have := hiff.1 hall
    omega
  · rw [if_neg hall, if_neg]
    · omega
    · intro hc
      apply hall
      apply hiff.2
      cases bytes with
      | nil => simp at hall
      | cons b bs => simp at hc hle ⊢; omega

/-- The number of units the callers' loop yields on an AMR voice frame. -/
theorem packetize_amr_length (f : ast_frame) (extra : Nat)
    (hv : f.frametype = AST_FRAME_VOICE) (ha : f.subclass &&& AST_FORMAT_AMR ≠ 0)
    (hl : f.datalen = f.data.length) :
    (packetize extra f).1.length = specTocEntries f.data ∧
    (init_h324m_packetizer f).1 = (if specTocEntries f.data = 0 then 0 else 1) := by
  rw [specTocEntries_eq]
  unfold packetize
  simp only
  rw [init_amr f hv ha hl]
  by_cases h : f.data.length ≤ 1 + ((f.data.drop 1).takeWhile tocContinues).length
  · simp only [if_pos h]
    simp
  · simp only [if_neg h, one_ne_zero, if_false]
    refine ⟨?_, by simp⟩
    apply packetizerLoop_length
    · left; exact ⟨hv, ha⟩
    · simp

theorem shiftToc_succ (d : List Nat) (m : Nat) :
    shiftToc d (m + 1) = (shiftToc d m).set m ((shiftToc d m).getD (m + 1) 0) := by
  simp [shiftToc, List.range_succ, List.foldl_append]

theorem shiftToc_length (d : List Nat) (m : Nat) : (shiftToc d m).length = d.length := by
  induction m with
  | zero => simp [shiftToc]
  | succ m ih => rw [shiftToc_succ, List.length_set, ih]

/-- After the shift the first `m` positions hold the bytes that were one
position further, and all other positions are unchanged. -/
theorem shiftToc_getElem? (d : List Nat) (m : Nat) (hm : m < d.length) (j : Nat) :
    (shiftToc d m)[j]? = if j < m then d[j + 1]? else d[j]? := by
  induction m generalizing j with
  | zero => simp [shiftToc]
  | succ m ih =>
    have ihm := fun j => ih (by omega) j
    rw [shiftToc_succ, List.getElem?_set, shiftToc_length]
    by_cases hj : m = j
    · subst hj
      have h1 : m < d.length := by omega
      have h2 := ihm (m + 1)
      rw [if_neg (by omega)] at h2
      simp only [if_true, if_pos h1, if_pos (Nat.lt_succ_self m), List.getD_eq_getElem?_getD, h2,
        List.getElem?_eq_getElem hm, Option.getD_some]
    · rw [if_neg hj, ihm j]
      by_cases hlt : j < m
      · rw [if_pos hlt, if_pos (by omega)]
      · rw [if_neg hlt, if_neg (by omega)]

theorem blockSizeUnsigned_eq (mode : Nat) (h : mode ≤ 8) :
    blockSizeUnsigned mode = specAmrLength mode ∧ specAmrLength mode + 1 < 4294967296 := by
  interval_cases mode <;> decide

/-- One call of `create_h324m_frame` on an AMR voice frame before the end. -/
theorem create_amr_step (fd off i m sub smp : Nat) (fl dl : Int) (d : List Nat)
    (hsub : sub &&& AST_FORMAT_AMR ≠ 0) (hi : i ≠ m) :
    create_h324m_frame ⟨fd, off, fl, i, m⟩ ⟨AST_FRAME_VOICE, sub, dl, d, smp⟩ =
      (some (FrameCreate .audio .CODEC_AMR
          (d.set (off - 1) ((tocMode (d.getD (fd + i) 0) <<< 3) ||| 0x04))
          (off + blockSizeUnsigned (tocMode (d.getD (fd + i) 0)) -
            blockSizeUnsigned (tocMode (d.getD (fd + i) 0)) - 1)
          (((blockSizeUnsigned (tocMode (d.getD (fd + i) 0)) + 1) % 4294967296 : Nat) : Int)),
        ⟨fd, off + blockSizeUnsigned (tocMode (d.getD (fd + i) 0)), fl, i + 1, m⟩,
        ⟨AST_FRAME_VOICE, sub, dl,
          d.set (off - 1) ((tocMode (d.getD (fd + i) 0) <<< 3) ||| 0x04), smp⟩) := by
  unfold create_h324m_frame
  simp only [hi, hsub, if_true, if_false, Nat.add_sub_cancel, tocMode]

/-- The units of the callers' loop on an AMR voice frame whose remaining TOC
entries have modes 0..8 and whose remaining sub-frames lie inside the frame. -/
theorem amr_loop (orig : List Nat) (m sub smp : Nat) (fl dl : Int)
    (hsub : sub &&& AST_FORMAT_AMR ≠ 0) (toc : List Nat) :
    ∀ (i off fuel : Nat) (d : List Nat),
      i + toc.length = m →
      (∀ k, k < toc.length → d[i + k]? = toc[k]?) →
      m + 1 ≤ off → d.length = orig.length → d.drop off = orig.drop off →
      (∀ e ∈ toc, tocMode e ≤ 8) →
      off + (toc.map (fun e => specAmrLength (tocMode e))).sum ≤ orig.length →
      toc.length + 1 ≤ fuel →
      (packetizerLoop fuel ⟨0, off, fl, i, m⟩ ⟨AST_FRAME_VOICE, sub, dl, d, smp⟩).1 =
        specAmrUnits toc (orig.drop off) := by
  induction toc with
  | nil =>
    intro i off fuel d hi _ _ _ _ _ _ hfuel
    obtain ⟨fuel, rfl⟩ : ∃ n, fuel = n + 1 := ⟨fuel - 1, by simp at hfuel; omega⟩
    have him : i = m := by simpa using hi
    simp [packetizerLoop, create_h324m_frame, him, specAmrUnits]
  | cons e toc ih =>
    intro i off fuel d hi htoc hoff hlen hdrop hmodes hfit hfuel
    simp only [List.length_cons] at hi hfuel
    obtain ⟨fuel, rfl⟩ : ∃ n, fuel = n + 1 := ⟨fuel - 1, by omega⟩
    have hde : d.getD (0 + i) 0 = e := by
      have := htoc 0 (by simp)
      simp only [Nat.add_zero, List.getElem?_cons_zero] at this
      simp [List.getD_eq_getElem?_getD, this]
    have hmode : tocMode e ≤ 8 := hmodes e (by simp)
    obtain ⟨hbs, hbs2⟩ := blockSizeUnsigned_eq (tocMode e) hmode
    simp only [List.map_cons, List.sum_cons] at hfit
    have hoffL : off - 1 < d.length := by omega
    rw [packetizerLoop, create_amr_step 0 off i m sub smp fl dl d hsub (by omega), hde, hbs]
    simp only
    rw [ih (i + 1) (off + specAmrLength (tocMode e)) fuel _ (by omega) ?_ (by omega)
      (by rw [List.length_set, hlen]) ?_ (fun x hx => hmodes x (by simp [hx])) (by omega)
      (by omega)]
    · simp only [specAmrUnits, FrameCreate, List.drop_drop, Nat.add_sub_cancel,
        Nat.mod_eq_of_lt hbs2, Int.toNat_ofNat, List.cons.injEq, and_true]
      rw [MediaFrame.mk.injEq]
      refine ⟨rfl, rfl, ?_, rfl⟩
      rw [List.drop_set, if_neg (Nat.lt_irrefl _), Nat.sub_self,
        List.drop_eq_getElem_cons hoffL, List.set_cons_zero, List.take_succ_cons]
      have : off - 1 + 1 = off := by omega
      rw [this, hdrop]
    · intro k hk
      rw [List.getElem?_set_ne (by omega)]
      have := htoc (k + 1) (by simp; omega)
      simp only [List.getElem?_cons_succ] at this
      rw [← this]
      congr 1
      omega
    · rw [List.drop_set_of_lt _ _ (by omega), ← List.drop_drop, hdrop, List.drop_drop]

theorem specAmrUnits_lengths (toc : List Nat) :
    ∀ payload : List Nat,
      (toc.map (fun e => specAmrLength (tocMode e))).sum ≤ payload.length →
      ∀ u ∈ specAmrUnits toc payload, (u.data.length : Int) = u.length := by
  induction toc with
  | nil => intro payload _ u hu; simp [specAmrUnits] at hu
  | cons e toc ih =>
    intro payload hfit u hu
    simp only [List.map_cons, List.sum_cons] at hfit
    simp only [specAmrUnits, List.mem_cons] at hu
    rcases hu with rfl | hu
    · simp only [List.length_cons, List.length_take]
      congr 1
      omega
    · exact ih _ (by rw [List.length_drop]; omega) u hu

theorem voice_frame_eta (f : ast_frame) (hv : f.frametype = AST_FRAME_VOICE) (d : List Nat) :
    { f with data := d } = ⟨AST_FRAME_VOICE, f.subclass, f.datalen, d, f.samples⟩ := by
  cases f
  simp only at hv
  subst hv
  rfl

/-- The units of an AMR voice frame that holds all its sub-frames. For every
AMR voice frame (well-formed: `datalen` is the number of bytes) whose TOC
entries all have a mode in 0..8 and with
`1 + max + (sum of the table lengths of the TOC modes) <= datalen`, the units of
the callers' loop are, in order, one per TOC entry: the header byte
`(mode << 3) | 0x04` followed by exactly the table length of payload bytes,
taken from the bytes of the input frame that follow the TOC, after the
sub-frames of the earlier units. -/
theorem amr_units_within_frame (f : ast_frame) (extra : Nat)
    (hv : f.frametype = AST_FRAME_VOICE) (ha : f.subclass &&& AST_FORMAT_AMR ≠ 0)
    (hl : f.datalen = f.data.length)
    (hmodes : ∀ e ∈ tocEntries f.data, tocMode e ≤ 8)
    (hfit : 1 + specTocEntries f.data +
      ((tocEntries f.data).map (fun e => specAmrLength (tocMode e))).sum ≤ f.data.length) :
    amrUnitsAsSpecified f.data (packetize extra f).1 := by
  have hunits : (packetize extra f).1 =
      specAmrUnits (tocEntries f.data) (amrPayload f.data) := by
    unfold packetize
    simp only
    rw [init_amr f hv ha hl]
    unfold tocEntries amrPayload at *
    rw [specTocEntries_eq] at *
    by_cases h : f.data.length ≤ 1 + ((f.data.drop 1).takeWhile tocContinues).length
    · simp only [if_pos h]
      simp [specAmrUnits]
    · simp only [if_neg h, one_ne_zero, if_false] at *
      rw [voice_frame_eta f hv]
      have hm : 1 + ((f.data.drop 1).takeWhile tocContinues).length < f.data.length := by omega
      have hadd : 1 + (1 + ((f.data.drop 1).takeWhile tocContinues).length) =
          1 + ((f.data.drop 1).takeWhile tocContinues).length + 1 := by omega
      rw [hadd] at *
      apply amr_loop f.data _ f.subclass f.samples f.datalen f.datalen ha
      · rw [List.length_take, List.length_drop]; omega
      · intro k hk
        rw [List.length_take, List.length_drop] at hk
        rw [Nat.zero_add, shiftToc_getElem? _ _ hm, if_pos (by omega),
          List.getElem?_take_of_lt (by omega), List.getElem?_drop, Nat.add_comm]
      · omega
      · exact shiftToc_length _ _
      · apply List.ext_getElem?
        intro n
        rw [List.getElem?_drop, List.getElem?_drop, shiftToc_getElem? _ _ hm, if_neg (by omega)]
      · exact hmodes
      · omega
      · rw [List.length_take, List.length_drop]; omega
  refine ⟨hunits, ?_⟩
  rw [hunits]
  apply specAmrUnits_lengths
  unfold amrPayload
  rw [List.length_drop]
  omega

theorem init_accepted (f : ast_frame) (h : (init_h324m_packetizer f).1 ≠ 0) :
    producesUnits (init_h324m_packetizer f).2.2 ∧ (init_h324m_packetizer f).2.1.num = 0 := by
  unfold init_h324m_packetizer at h ⊢
  unfold producesUnits
  simp only at h ⊢
  split_ifs at h ⊢ <;> simp_all

/-- C7 (invalid AMR mode). The packetizer does not reject reserved modes: for
every AMR voice frame (well-formed) with a TOC entry of mode 9..15, whose table
entry `blockSize[mode]` is -1, `init_h324m_packetizer` accepts the frame and the
callers' loop yields one unit per TOC entry, the reserved entry included,
instead of no unit. -/
theorem C7_reserved_mode_units_emitted (f : ast_frame) (extra : Nat)
    (hv : f.frametype = AST_FRAME_VOICE) (ha : f.subclass &&& AST_FORMAT_AMR ≠ 0)
    (hl : f.datalen = f.data.length)
    (e : Nat) (he : e ∈ tocEntries f.data) (hmode : 9 ≤ tocMode e) :
    blockSize.getD (tocMode e) 0 = -1 ∧
    (init_h324m_packetizer f).1 = 1 ∧
    (packetize extra f).1.length = specTocEntries f.data ∧
    0 < specTocEntries f.data := by
  obtain ⟨h1, h2⟩ := packetize_amr_length f extra hv ha hl
  have hpos : specTocEntries f.data ≠ 0 := by
    intro h0
    unfold tocEntries at he
    rw [h0] at he
    simp at he
  have hle : tocMode e ≤ 15 := by unfold tocMode; exact Nat.and_le_right
  refine ⟨?_, ?_, h1, Nat.pos_of_ne_zero hpos⟩
  · generalize tocMode e = mode at hmode hle
    interval_cases mode <;> decide
  · rw [h2, if_neg hpos]

/-- Witness for C7: the AMR voice frame `F0 48 01 02 03`, whose single TOC
entry has mode 9, is accepted and yields one unit; the unit is built with
`bs + 1 = 0` bytes. Likewise the entry of mode 15 in `F0 8C 78` followed by
14 bytes gets a unit after the one of the valid entry. -/
theorem C7_reserved_mode_units_emitted_witness :
    (blockSize.getD (tocMode 0x48) 0 = -1 ∧
      (init_h324m_packetizer (amrVoiceFrame [0xF0, 0x48, 1, 2, 3])).1 = 1 ∧
      (packetize 0 (amrVoiceFrame [0xF0, 0x48, 1, 2, 3])).1.length =
        specTocEntries (amrVoiceFrame [0xF0, 0x48, 1, 2, 3]).data ∧
      0 < specTocEntries (amrVoiceFrame [0xF0, 0x48, 1, 2, 3]).data) ∧
    tocMode 0x48 = 9 ∧
    (packetize 0 (amrVoiceFrame [0xF0, 0x48, 1, 2, 3])).1 =
      [⟨.audio, .CODEC_AMR, [], 0⟩] ∧
    tocMode 0x78 = 15 ∧
    (packetize 0 (amrVoiceFrame ([0xF0, 0x8C, 0x78] ++ List.range 14))).1 =
      [⟨.audio, .CODEC_AMR, 0x0C :: List.range 13, 14⟩,
       ⟨.audio, .CODEC_AMR, [], 0⟩] :=
  ⟨C7_reserved_mode_units_emitted (amrVoiceFrame [0xF0, 0x48, 1, 2, 3]) 0
      (by decide) (by decide) (by decide) 0x48 (by decide) (by decide),
    by decide, by decide, by decide, by decide⟩

/-- The calls on an accepted context, as long as their accesses stay inside
the frame: call number `k + 1` of `create_h324m_frame` yields a unit exactly
when `k` differs from `max`. The callers make the calls 1 to `max + 1` only:
the first `max` yield units and call `max + 1` returns `NULL`, which ends their
loop, and `init_h324m_packetizer` clears the context for the next frame. -/
theorem accepted_call_isSome (f : ast_frame) (k : Nat)
    (hacc : (init_h324m_packetizer f).1 ≠ 0) :
    (nthCreateCall k (init_h324m_packetizer f).2.1 (init_h324m_packetizer f).2.2).isSome =
      decide (k ≠ (init_h324m_packetizer f).2.1.max) := by
  obtain ⟨hp, hnum⟩ := init_accepted f hacc
  rw [nthCreateCall_isSome k _ _ hp, hnum, Nat.zero_add]

theorem drop_set_set_zero (l : List Nat) (q : Nat) (h : q + 2 ≤ l.length) :
    ((l.set q 0).set (q + 1) 0).drop q = 0 :: 0 :: l.drop (q + 2) := by
  induction q generalizing l with
  | zero =>
    match l, h with
    | a :: b :: t, _ => simp
  | succ q ih =>
    match l, h with
    | a :: t, h =>
      simp only [List.length_cons] at h
      simpa using ih t (by omega)

theorem plen_byte (b0 b1 : Nat) (h1 : b1 < 256) :
    (((b0 &&& 0x1) <<< 5) ||| (b1 >>> 3)) % 256 = ((b0 &&& 0x1) <<< 5) ||| (b1 >>> 3) := by
  apply Nat.mod_eq_of_lt
  have ha : b0 &&& 0x1 ≤ 1 := Nat.and_le_right
  have hx : (b0 &&& 0x1) <<< 5 < 2 ^ 8 := by
    rw [Nat.shiftLeft_eq]; omega
  have hy : b1 >>> 3 < 2 ^ 8 := by
    rw [Nat.shiftRight_eq_div_pow]; omega
  exact Nat.or_lt_two_pow hx hy

/-- What `init_h324m_packetizer` returns on an H.263+ video frame. -/
theorem init_h263p (f : ast_frame) (hv : f.frametype = AST_FRAME_VIDEO)
    (h263 : f.subclass &&& AST_FORMAT_H263 = 0)
    (hplus : f.subclass &&& AST_FORMAT_H263_PLUS ≠ 0)
    (hb : f.data.getD 1 0 < 256) :
    init_h324m_packetizer f =
      if specPBit f.data ≠ 0 then
        (1, ⟨specSkip f.data - 2, 0, f.datalen - specSkip f.data + 2, 0, 1⟩,
          { f with data := (f.data.set (specSkip f.data - 2) 0).set (specSkip f.data - 2 + 1) 0 })
      else
        (1, ⟨specSkip f.data, 0, f.datalen - specSkip f.data, 0, 1⟩, f) := by
  have hvv : AST_FRAME_VIDEO ≠ AST_FRAME_VOICE := by decide
  unfold init_h324m_packetizer
  simp only [hv, hvv, h263, hplus, if_true, if_false, ne_eq, not_true_eq_false,
    not_false_eq_true, plen_byte _ _ hb]
  unfold specSkip specPBit specVBit specPlen
  by_cases hV : f.data.getD 0 0 &&& 0x02 = 0 <;> by_cases hP : f.data.getD 0 0 &&& 0x04 = 0
  all_goals
    simp only [hV, hP, if_true, if_false, ne_eq, not_true_eq_false, not_false_eq_true,
      Nat.zero_add, Nat.add_zero, Prod.mk.injEq, h324m_packetizer.mk.injEq, true_and, and_true]
  all_goals omega

/-- The callers' loop on a video frame: one unit, then `NULL`. -/
theorem video_loop (f : ast_frame) (hv : f.frametype = AST_FRAME_VIDEO) (fd off n : Nat)
    (fl : Int) :
    packetizerLoop (n + 2) ⟨fd, off, fl, 0, 1⟩ f =
      ([FrameCreate .video .CODEC_H263 f.data fd fl], f) := by
  have hvv : AST_FRAME_VIDEO ≠ AST_FRAME_VOICE := by decide
  simp [packetizerLoop, create_h324m_frame, hv, hvv]

/-- C9 (H.263+ header stripping). For every H.263+ video frame (well-formed:
`datalen` is the number of bytes, every byte below 256) with
`s = 2 + PLEN + (1 if V set) <= L`, the callers' loop yields exactly one unit:
`b[s, L)` when P is clear, and `00 00` followed by `b[s, L)` when P is set;
the frame's storage is left untouched when P is clear, and has the two bytes
before index `s` set to zero when P is set. -/
theorem C9_h263p_header_stripping (f : ast_frame) (extra : Nat)
    (hv : f.frametype = AST_FRAME_VIDEO) (h263 : f.subclass &&& AST_FORMAT_H263 = 0)
    (hplus : f.subclass &&& AST_FORMAT_H263_PLUS ≠ 0)
    (hl : f.datalen = f.data.length) (hbytes : ∀ b ∈ f.data, b < 256)
    (hs : specSkip f.data ≤ f.data.length) :
    (packetize extra f).1 =
      [⟨.video, .CODEC_H263,
        (if specPBit f.data ≠ 0 then [0, 0] else []) ++ f.data.drop (specSkip f.data),
        (((if specPBit f.data ≠ 0 then 2 else 0) + (f.data.length - specSkip f.data) : Nat) : Int)⟩] ∧
    (packetize extra f).2.data =
      (if specPBit f.data ≠ 0 then
        (f.data.set (specSkip f.data - 2) 0).set (specSkip f.data - 1) 0
      else f.data) := by
  have hs2 : 2 ≤ specSkip f.data := by unfold specSkip; omega
  have hb : f.data.getD 1 0 < 256 := by
    have h1 : 1 < f.data.length := by omega
    rw [List.getD_eq_getElem?_getD, List.getElem?_eq_getElem h1, Option.getD_some]
    exact hbytes _ (List.getElem_mem _)
  have e1 : specSkip f.data - 2 + 1 = specSkip f.data - 1 := by omega
  have e3 : 1 + 1 + extra = extra + 2 := by omega
  unfold packetize
  simp only
  rw [init_h263p f hv h263 hplus hb]
  by_cases hP : specPBit f.data = 0
  · simp only [hP, ne_eq, not_true_eq_false, if_false, one_ne_zero, e3]
    rw [video_loop f hv]
    simp only [FrameCreate, List.nil_append, Nat.zero_add, and_true, List.cons.injEq,
      MediaFrame.mk.injEq, true_and]
    rw [hl]
    refine ⟨?_, by omega⟩
    apply List.take_of_length_le
    rw [List.length_drop]
    omega
  · simp only [hP, ne_eq, not_false_eq_true, if_true, one_ne_zero, if_false, e3, e1]
    rw [video_loop _ (by simpa using hv)]
    simp only [FrameCreate, and_true, List.cons.injEq, MediaFrame.mk.injEq, true_and]
    rw [hl]
    refine ⟨?_, by omega⟩
    have hd := drop_set_set_zero f.data (specSkip f.data - 2) (by omega)
    rw [e1] at hd
    rw [hd]
    have e2 : specSkip f.data - 2 + 2 = specSkip f.data := by omega
    rw [e2]
    apply List.take_of_length_le
    simp only [List.length_cons, List.length_drop, List.cons_append, List.nil_append]
    omega

/-- Witness for C9: the frame `00 00 AA BB CC` (first byte `0x00`, PLEN 0)
yields the single unit `AA BB CC = b[2, L)`, no prefix restored and no byte of
the frame overwritten; the frame `04 00 AA BB` (P set) yields `00 00 AA BB`. -/
theorem C9_h263p_header_stripping_witness :
    ((packetize 0 (h263pVideoFrame [0x00, 0x00, 0xAA, 0xBB, 0xCC])).1 =
        [⟨.video, .CODEC_H263, [0xAA, 0xBB, 0xCC], 3⟩] ∧
      (packetize 0 (h263pVideoFrame [0x00, 0x00, 0xAA, 0xBB, 0xCC])).2.data =
        [0x00, 0x00, 0xAA, 0xBB, 0xCC]) ∧
    (packetize 0 (h263pVideoFrame [0x04, 0x00, 0xAA, 0xBB])).1 =
        [⟨.video, .CODEC_H263, [0x00, 0x00, 0xAA, 0xBB], 4⟩] :=
  ⟨C9_h263p_header_stripping (h263pVideoFrame [0x00, 0x00, 0xAA, 0xBB, 0xCC]) 0
      (by decide) (by decide) (by decide) (by decide) (by decide) (by decide),
    (C9_h263p_header_stripping (h263pVideoFrame [0x04, 0x00, 0xAA, 0xBB]) 0
      (by decide) (by decide) (by decide) (by decide) (by decide) (by decide)).1⟩

/-! ## Theorems: depacketizer -/

/-- C10 (video temporal reference). `create_ast_frame` decodes the temporal
reference from bytes 0 and 1 of the unit, which are zero on every picture-start
unit, not from bytes 2 and 3 that carry it: the stored reference is always set
to 0 and the sample count is computed from 0 and the previous value. Units
encoding the temporal references 5 and then 250, fed to a fresh state, leave
reference 0 and sample count 0 both times, where 5000 and 245000 are specified. -/
theorem C10_temporal_reference_read_from_start_code :
    (∀ (vtr : video_tr) (rest : List Nat) (len : Int),
      (create_ast_frame ⟨.video, .CODEC_H263, 0 :: 0 :: rest, len⟩ vtr).2 =
        ⟨0, (((if 0 < vtr.tr then ((256 + (0 : Int)) - vtr.tr) * 1000
              else ((0 : Int) - vtr.tr) * 1000)) % 4294967296).toNat⟩) ∧
    pictureTemporalReference [0, 0, 0x80, 0x14] = 5 ∧
    pictureTemporalReference [0, 0, 0x83, 0xE8] = 250 ∧
    (create_ast_frame ⟨.video, .CODEC_H263, [0, 0, 0x80, 0x14], 4⟩ ⟨0, 0⟩).2 = ⟨0, 0⟩ ∧
    (create_ast_frame ⟨.video, .CODEC_H263, [0, 0, 0x83, 0xE8], 4⟩ ⟨0, 0⟩).2 = ⟨0, 0⟩ ∧
    specSamples 5 0 = 5000 ∧ specSamples 250 5 = 245000 ∧ specSamples 5 250 = 11000 := by
  refine ⟨?_, by decide, by decide, by decide, by decide, by decide, by decide, by decide⟩
  intro vtr rest len
  simp [create_ast_frame]


/-- The frame `create_ast_frame` builds for an AMR audio unit. -/
theorem create_ast_frame_amr (u : List Nat) (vtr : video_tr) (hn : u.length < 4294967296) :
    create_ast_frame (audioUnit .CODEC_AMR u) vtr =
      (some ⟨AST_FRAME_VOICE, AST_FORMAT_AMR, (u.length : Int), specVoicePayload u, 160⟩, vtr) := by
  have hmod : ((u.length : Int) % 4294967296).toNat = u.length := by omega
  simp only [create_ast_frame, audioUnit, hmod, ne_eq, not_true_eq_false, if_false,
    List.take_length, specVoicePayload]

/-- C11 (audio depacketizing). For an AMR audio unit with bytes `u` of length
`n` (below `2^32`), `create_ast_frame` emits a voice frame with 160 samples, but
declares `datalen = n` although it wrote `n + 2` bytes: the payload over the
declared length is the first `n` bytes of `F0, header, u`, so the last two
bytes of the unit are dropped. For another codec no frame is emitted. -/
theorem C11_audio_payload_declared_two_short (u : List Nat) (vtr : video_tr)
    (tag : Nat) (hn : u.length < 4294967296) :
    (∃ send, (create_ast_frame (audioUnit .CODEC_AMR u) vtr).1 = some send ∧
      send.frametype = AST_FRAME_VOICE ∧ send.samples = 160 ∧
      send.data = specVoicePayload u ∧
      send.datalen = (u.length : Int) ∧
      send.payload = (specVoicePayload u).take u.length ∧
      send.payload.length = u.length ∧
      send.payload ≠ specVoicePayload u) ∧
    (create_ast_frame (audioUnit (.other tag) u) vtr).1 = none ∧
    (create_ast_frame (audioUnit .CODEC_H263 u) vtr).1 = none := by
  have hlen : ((specVoicePayload u).take u.length).length = u.length := by
    rw [List.length_take]
    simp only [specVoicePayload, List.length_append, List.length_cons, List.length_nil]
    omega
  refine ⟨⟨_, congrArg Prod.fst (create_ast_frame_amr u vtr hn), rfl, rfl, rfl, rfl, ?_, ?_, ?_⟩,
    ?_, ?_⟩
  · simp only [ast_frame.payload, Int.toNat_ofNat]
  · simp only [ast_frame.payload, Int.toNat_ofNat]
    exact hlen
  · simp only [ast_frame.payload, Int.toNat_ofNat]
    intro h
    have h2 := congrArg List.length h
    rw [hlen] at h2
    simp only [specVoicePayload, List.length_append, List.length_cons, List.length_nil] at h2
    omega
  · simp [create_ast_frame, audioUnit]
  · simp [create_ast_frame, audioUnit]

/-- Witness for C11: the AMR unit `0C 01 02 03` gives a voice frame with
`datalen = 4` whose payload over that length is `F0 0C 0C 01`; the bytes `02`
and `03` of the unit lie behind the declared length. -/
theorem C11_audio_payload_declared_two_short_witness :
    (∃ send, (create_ast_frame (audioUnit .CODEC_AMR [0x0C, 1, 2, 3]) ⟨0, 0⟩).1 = some send ∧
      send.frametype = AST_FRAME_VOICE ∧ send.samples = 160 ∧
      send.data = specVoicePayload [0x0C, 1, 2, 3] ∧
      send.datalen = (([0x0C, 1, 2, 3] : List Nat).length : Int) ∧
      send.payload = (specVoicePayload [0x0C, 1, 2, 3]).take ([0x0C, 1, 2, 3] : List Nat).length ∧
      send.payload.length = ([0x0C, 1, 2, 3] : List Nat).length ∧
      send.payload ≠ specVoicePayload [0x0C, 1, 2, 3]) ∧
    (create_ast_frame (audioUnit .CODEC_AMR [0x0C, 1, 2, 3]) ⟨0, 0⟩).1.map ast_frame.payload =
      some [0xF0, 0x0C, 0x0C, 1] :=
  ⟨(C11_audio_payload_declared_two_short [0x0C, 1, 2, 3] ⟨0, 0⟩ 0 (by decide)).1, by decide⟩

theorem packetize_of_init (f : ast_frame) (extra : Nat) (pak : h324m_packetizer)
    (f1 : ast_frame) (h : init_h324m_packetizer f = (1, pak, f1)) :
    packetize extra f = packetizerLoop (pak.max + 1 + extra) pak f1 := by
  unfold packetize
  simp only [h, one_ne_zero, if_false]

theorem packetizerLoop_some (n : Nat) (pak pak1 : h324m_packetizer) (f f1 : ast_frame)
    (u : MediaFrame) (h : create_h324m_frame pak f = (some u, pak1, f1)) :
    (packetizerLoop (n + 1) pak f).1 = u :: (packetizerLoop n pak1 f1).1 := by
  rw [packetizerLoop, h]

theorem packetizerLoop_end (n : Nat) (pak : h324m_packetizer) (f : ast_frame)
    (h : pak.num = pak.max) : (packetizerLoop n pak f).1 = [] := by
  cases n with
  | zero => rfl
  | succ n => simp [packetizerLoop, create_h324m_frame, h]

/-- C12 (AMR units stay inside the frame). `init_h324m_packetizer` bounds only
the TOC scan by the frame length, not the sub-frames: for every payload `rest`
of fewer than 12 bytes the AMR voice frame `F0 04 rest` (one TOC entry, mode 0,
table length 12) is accepted with `max = 1` although
`1 + max + blockSize[0] = 14` exceeds its length, and `create_h324m_frame`
builds the unit with length 13 at index 1, which reaches behind the frame: the
unit holds only the `1 + rest.length` bytes the frame has from there on. -/
theorem C12_short_frame_accepted_and_overrun (rest : List Nat) (h : rest.length < 12) :
    (init_h324m_packetizer (amrVoiceFrame (0xF0 :: 0x04 :: rest))).1 = 1 ∧
    (init_h324m_packetizer (amrVoiceFrame (0xF0 :: 0x04 :: rest))).2.1.max = 1 ∧
    ¬ unitsWithinFrame (0xF0 :: 0x04 :: rest) ∧
    (packetize 0 (amrVoiceFrame (0xF0 :: 0x04 :: rest))).1 =
      [⟨.audio, .CODEC_AMR, 0x04 :: rest, 13⟩] ∧
    (1 + (13 : Int) > ((0xF0 :: 0x04 :: rest).length : Int)) := by
  have hc : tocContinues 0x04 = false := by decide
  have hspec : specTocEntries (0xF0 :: 0x04 :: rest) = 1 := by
    simp [specTocEntries, hc, List.takeWhile_cons]
  have hm0 : tocMode 0x04 = 0 := by decide
  have hb0 : blockSizeUnsigned 0 = 12 := by decide
  have hamr : AST_FORMAT_AMR &&& AST_FORMAT_AMR ≠ 0 := by decide
  have hshift : shiftToc (0xF0 :: 0x04 :: rest) 1 = 0x04 :: 0x04 :: rest := by
    simp [shiftToc, List.range_succ]
  have hinit : init_h324m_packetizer (amrVoiceFrame (0xF0 :: 0x04 :: rest)) =
      (1, ⟨0, 2, ((0xF0 :: 0x04 :: rest).length : Int), 0, 1⟩,
        ⟨AST_FRAME_VOICE, AST_FORMAT_AMR, ((0xF0 :: 0x04 :: rest).length : Int),
          0x04 :: 0x04 :: rest, 0⟩) := by
    rw [init_amr (amrVoiceFrame (0xF0 :: 0x04 :: rest)) rfl hamr rfl]
    simp only [amrVoiceFrame, List.drop_succ_cons, List.drop_zero, List.takeWhile_cons, hc,
      List.length_nil, Bool.false_eq_true, if_false, Nat.add_zero, hshift]
    rw [if_neg (by simp only [List.length_cons]; omega)]
  refine ⟨?_, ?_, ?_, ?_, ?_⟩
  · rw [hinit]
  · rw [hinit]
  · unfold unitsWithinFrame tocEntries
    rw [hspec]
    simp only [List.drop_succ_cons, List.drop_zero, List.take_succ_cons, List.take_zero,
      List.map_cons, List.map_nil, List.sum_cons, List.sum_nil, hm0, hb0, List.length_cons]
    omega
  · rw [packetize_of_init _ 0 _ _ hinit]
    have hstep := create_amr_step 0 2 0 1 AST_FORMAT_AMR 0
      ((0xF0 :: 0x04 :: rest).length : Int) ((0xF0 :: 0x04 :: rest).length : Int)
      (0x04 :: 0x04 :: rest) hamr (by decide)
    rw [packetizerLoop_some _ _ _ _ _ _ hstep, packetizerLoop_end _ _ _ rfl]
    have hmod : (12 + 1) % 4294967296 = 13 := by norm_num
    have hset : (0x04 :: 0x04 :: rest).set (2 - 1) ((0 <<< 3) ||| 0x04) =
        0x04 :: 0x04 :: rest := by simp
    have hget : (0x04 :: 0x04 :: rest).getD (0 + 0) 0 = 0x04 := rfl
    simp only [FrameCreate, hget, hm0, hb0, hmod, hset, Int.toNat_ofNat, Nat.add_sub_cancel,
      List.cons.injEq, and_true, MediaFrame.mk.injEq, true_and]
    refine ⟨?_, by norm_num⟩
    simp only [Nat.reduceSub, List.drop_succ_cons, List.drop_zero]
    apply List.take_of_length_le
    simp only [List.length_cons]
    omega
  · simp only [List.length_cons]
    omega

/-- Witness for C12: the 5-byte frame `F0 04 01 02 03` is accepted and its
unit is built with length 13 at index 1. On `F0 84 04 01 02` (two entries of
mode 0) the first call leaves `offset = 15`, so the second call writes the
header byte `offset[-1]` at index 14 of a 5-byte frame. -/
theorem C12_short_frame_accepted_and_overrun_witness :
    ((init_h324m_packetizer (amrVoiceFrame (0xF0 :: 0x04 :: [1, 2, 3]))).1 = 1 ∧
      (init_h324m_packetizer (amrVoiceFrame (0xF0 :: 0x04 :: [1, 2, 3]))).2.1.max = 1 ∧
      ¬ unitsWithinFrame (0xF0 :: 0x04 :: [1, 2, 3]) ∧
      (packetize 0 (amrVoiceFrame (0xF0 :: 0x04 :: [1, 2, 3]))).1 =
        [⟨.audio, .CODEC_AMR, 0x04 :: [1, 2, 3], 13⟩] ∧
      (1 + (13 : Int) > ((0xF0 :: 0x04 :: [1, 2, 3]).length : Int))) ∧
    (init_h324m_packetizer (amrVoiceFrame [0xF0, 0x84, 0x04, 1, 2])).1 = 1 ∧
    (create_h324m_frame (init_h324m_packetizer (amrVoiceFrame [0xF0, 0x84, 0x04, 1, 2])).2.1
      (init_h324m_packetizer (amrVoiceFrame [0xF0, 0x84, 0x04, 1, 2])).2.2).2.1.offset = 15 ∧
    ((packetize 0 (amrVoiceFrame [0xF0, 0x84, 0x04, 1, 2])).1.map MediaFrame.length) = [13, 13] :=
  ⟨C12_short_frame_accepted_and_overrun [1, 2, 3] (by decide), by decide, by decide, by decide⟩


/-! ## Theorems: packetizer runs with the accesses checked -/

theorem createInBounds_end (pak : h324m_packetizer) (f : ast_frame) (h : pak.num = pak.max) :
    createInBounds pak f = true := by
  simp [createInBounds, h]

theorem createInBounds_amr (fd off i m sub smp : Nat) (fl dl : Int) (d : List Nat)
    (hsub : sub &&& AST_FORMAT_AMR ≠ 0) (hi : i ≠ m) :
    createInBounds ⟨fd, off, fl, i, m⟩ ⟨AST_FRAME_VOICE, sub, dl, d, smp⟩ =
      decide (fd + i < d.length ∧ 1 ≤ off ∧ off - 1 < d.length ∧
        off - 1 + (blockSizeUnsigned (tocMode (d.getD (fd + i) 0)) + 1) % 4294967296 ≤
          d.length) := by
  unfold createInBounds
  simp only [hi, hsub, if_true, if_false, tocMode]

/-- A checked run that stays inside the frame yields the units and the frame
of the callers' loop. -/
theorem packetizerLoopChecked_some (fuel : Nat) :
    ∀ (pak : h324m_packetizer) (f f1 : ast_frame),
      (packetizerLoopChecked fuel pak f).2 = some f1 →
      (packetizerLoopChecked fuel pak f).1 = (packetizerLoop fuel pak f).1 ∧
        f1 = (packetizerLoop fuel pak f).2 := by
  induction fuel with
  | zero =>
    intro pak f f1 h
    simp only [packetizerLoopChecked, Option.some.injEq] at h
    simp [packetizerLoopChecked, packetizerLoop, h]
  | succ fuel ih =>
    intro pak f f1 h
    rw [packetizerLoopChecked] at h ⊢
    rw [packetizerLoop]
    by_cases hb : createInBounds pak f = true
    · rw [if_pos hb] at h ⊢
      rcases hc : create_h324m_frame pak f with ⟨u, pak1, f2⟩
      rw [hc] at h
      cases u with
      | none =>
        simp only [Option.some.injEq] at h
        simp [h]
      | some u =>
        simp only at h
        obtain ⟨h1, h2⟩ := ih pak1 f2 f1 h
        exact ⟨by simp only [h1], h2⟩
    · rw [if_neg hb] at h
      simp at h

theorem packetizeChecked_some (extra : Nat) (f f1 : ast_frame)
    (h : (packetizeChecked extra f).2 = some f1) :
    (packetizeChecked extra f).1 = (packetize extra f).1 := by
  unfold packetizeChecked at h ⊢
  unfold packetize
  simp only at h ⊢
  by_cases h0 : (init_h324m_packetizer f).1 = 0
  · simp only [h0, if_true]
  · simp only [h0, if_false] at h ⊢
    exact (packetizerLoopChecked_some _ _ _ f1 h).1

/-- The checked run on an AMR voice frame whose remaining sub-frames lie
inside the storage stays inside the storage. -/
theorem amr_loopChecked_isSome (m sub smp : Nat) (fl dl : Int)
    (hsub : sub &&& AST_FORMAT_AMR ≠ 0) (toc : List Nat) :
    ∀ (i off fuel : Nat) (d : List Nat),
      i + toc.length = m →
      (∀ k, k < toc.length → d[i + k]? = toc[k]?) →
      m + 1 ≤ off →
      off + (toc.map (fun e => blockSizeUnsigned (tocMode e))).sum ≤ d.length →
      (packetizerLoopChecked fuel ⟨0, off, fl, i, m⟩
        ⟨AST_FRAME_VOICE, sub, dl, d, smp⟩).2.isSome = true := by
  induction toc with
  | nil =>
    intro i off fuel d hi _ _ _
    have him : i = m := by simpa using hi
    cases fuel with
    | zero => simp [packetizerLoopChecked]
    | succ fuel =>
      rw [packetizerLoopChecked, createInBounds_end _ _ him]
      simp [create_h324m_frame, him]
  | cons e toc ih =>
    intro i off fuel d hi htoc hoff hfit
    simp only [List.length_cons] at hi
    simp only [List.map_cons, List.sum_cons] at hfit
    cases fuel with
    | zero => simp [packetizerLoopChecked]
    | succ fuel =>
      have hde : d.getD (0 + i) 0 = e := by
        have := htoc 0 (by simp)
        simp only [Nat.add_zero, List.getElem?_cons_zero] at this
        simp [List.getD_eq_getElem?_getD, this]
      have hmodle : (blockSizeUnsigned (tocMode e) + 1) % 4294967296 ≤
          blockSizeUnsigned (tocMode e) + 1 := Nat.mod_le _ _
      have hin : createInBounds ⟨0, off, fl, i, m⟩ ⟨AST_FRAME_VOICE, sub, dl, d, smp⟩ = true := by
        rw [createInBounds_amr 0 off i m sub smp fl dl d hsub (by omega), hde]
        simp only [decide_eq_true_eq]
        omega
      rw [packetizerLoopChecked, if_pos hin,
        create_amr_step 0 off i m sub smp fl dl d hsub (by omega), hde]
      simp only
      apply ih (i + 1) (off + blockSizeUnsigned (tocMode e)) fuel _ (by omega) ?_ (by omega)
        (by rw [List.length_set]; omega)
      intro k hk
      rw [List.getElem?_set_ne (by omega)]
      have := htoc (k + 1) (by simp; omega)
      simp only [List.getElem?_cons_succ] at this
      rw [← this]
      congr 1
      omega

theorem packetizeChecked_rejected (f : ast_frame) (extra : Nat)
    (hv : f.frametype = AST_FRAME_VOICE) (ha : f.subclass &&& AST_FORMAT_AMR ≠ 0)
    (hl : f.datalen = f.data.length) (h0 : specTocEntries f.data = 0) :
    packetizeChecked extra f = ([], some f) := by
  have hinit := (packetize_amr_length f extra hv ha hl).2
  rw [if_pos h0] at hinit
  have hf : (init_h324m_packetizer f).2.2 = f := by
    rw [init_amr f hv ha hl]
    rw [specTocEntries_eq] at h0
    by_cases h : f.data.length ≤ 1 + ((f.data.drop 1).takeWhile tocContinues).length
    · simp only [if_pos h]
    · rw [if_neg h] at h0
      omega
  unfold packetizeChecked
  simp only [hinit, if_true, hf]

/-- The checked run on an AMR voice frame that holds all its sub-frames stays
inside the frame. -/
theorem packetizeChecked_isSome (f : ast_frame) (extra : Nat)
    (hv : f.frametype = AST_FRAME_VOICE) (ha : f.subclass &&& AST_FORMAT_AMR ≠ 0)
    (hl : f.datalen = f.data.length) (hfit : unitsWithinFrame f.data) :
    (packetizeChecked extra f).2.isSome = true := by
  by_cases h0 : specTocEntries f.data = 0
  · rw [packetizeChecked_rejected f extra hv ha hl h0]
    rfl
  · unfold packetizeChecked
    simp only
    rw [init_amr f hv ha hl]
    unfold unitsWithinFrame tocEntries at hfit
    rw [specTocEntries_eq] at h0 hfit
    by_cases h : f.data.length ≤ 1 + ((f.data.drop 1).takeWhile tocContinues).length
    · rw [if_pos h] at h0
      exact absurd rfl h0
    · simp only [if_neg h, one_ne_zero, if_false] at hfit ⊢
      rw [voice_frame_eta f hv]
      have hm : 1 + ((f.data.drop 1).takeWhile tocContinues).length < f.data.length := by omega
      apply amr_loopChecked_isSome _ f.subclass f.samples f.datalen f.datalen ha
        ((f.data.drop 1).take (1 + ((f.data.drop 1).takeWhile tocContinues).length))
      · rw [List.length_take, List.length_drop]; omega
      · intro k hk
        rw [List.length_take, List.length_drop] at hk
        rw [Nat.zero_add, shiftToc_getElem? _ _ hm, if_pos (by omega),
          List.getElem?_take_of_lt (by omega), List.getElem?_drop, Nat.add_comm]
      · omega
      · rw [shiftToc_length]
        omega

/-- The unit count on the runs that stay inside the frame. For every AMR
voice frame (well-formed: `datalen` is the number of bytes): whenever the
accesses of `create_h324m_frame` stay inside the frame's bytes, the callers'
loop yields exactly as many units as the frame has TOC entries; they do stay
inside whenever `1 + max + (sum of blockSize[mode]) <= L`; and when no entry
without the continuation bit lies within the frame, `init` returns 0 and no
unit is yielded. The loop has ended after `max + 1` calls, whatever fuel is
left. -/
theorem amr_unit_count_within_frame (f : ast_frame) (extra : Nat)
    (hv : f.frametype = AST_FRAME_VOICE) (ha : f.subclass &&& AST_FORMAT_AMR ≠ 0)
    (hl : f.datalen = f.data.length) :
    (∀ f1, (packetizeChecked extra f).2 = some f1 →
      (packetizeChecked extra f).1.length = specTocEntries f.data) ∧
    (unitsWithinFrame f.data →
      (packetizeChecked extra f).2.isSome = true ∧
        (packetizeChecked extra f).1.length = specTocEntries f.data) ∧
    (specTocEntries f.data = 0 → packetizeChecked extra f = ([], some f)) ∧
    (specTocEntries f.data = 0 ↔ (init_h324m_packetizer f).1 = 0) := by
  obtain ⟨h1, h2⟩ := packetize_amr_length f extra hv ha hl
  have hsome : ∀ f1, (packetizeChecked extra f).2 = some f1 →
      (packetizeChecked extra f).1.length = specTocEntries f.data := by
    intro f1 hf1
    rw [packetizeChecked_some extra f f1 hf1, h1]
  refine ⟨hsome, ?_, packetizeChecked_rejected f extra hv ha hl, ?_⟩
  · intro hfit
    have hs := packetizeChecked_isSome f extra hv ha hl hfit
    refine ⟨hs, ?_⟩
    obtain ⟨f1, hf1⟩ := Option.isSome_iff_exists.mp hs
    exact hsome f1 hf1
  · rw [h2]
    by_cases h : specTocEntries f.data = 0 <;> simp [h]

/-- C5 (AMR unit count). The run does not yield one unit per TOC entry on
every AMR voice frame: the 15-byte frame `F0 C8 04` followed by 12 bytes has 2
TOC entries (mode 9, then mode 0) and is accepted with `max = 2`, but the first
call builds a unit of `bs + 1 = 0` bytes and moves `offset` by `0xFFFFFFFF`,
and the second call writes its header byte through `offset[-1]`, outside the
frame: the run ends there with one unit handed over, not two. -/
theorem C5_reserved_mode_run_ends_early :
    specTocEntries (amrVoiceFrame ([0xF0, 0xC8, 0x04] ++ List.replicate 12 0x55)).data = 2 ∧
    (init_h324m_packetizer
      (amrVoiceFrame ([0xF0, 0xC8, 0x04] ++ List.replicate 12 0x55))).1 = 1 ∧
    packetizeChecked 0 (amrVoiceFrame ([0xF0, 0xC8, 0x04] ++ List.replicate 12 0x55)) =
      ([⟨.audio, .CODEC_AMR, [], 0⟩], none) ∧
    ¬ ((packetizeChecked 0
          (amrVoiceFrame ([0xF0, 0xC8, 0x04] ++ List.replicate 12 0x55))).2.isSome = true ∧
        (packetizeChecked 0
          (amrVoiceFrame ([0xF0, 0xC8, 0x04] ++ List.replicate 12 0x55))).1.length =
          specTocEntries (amrVoiceFrame ([0xF0, 0xC8, 0x04] ++ List.replicate 12 0x55)).data) := by
  decide

theorem packetizeChecked_of_init (f : ast_frame) (extra : Nat) (pak : h324m_packetizer)
    (f1 : ast_frame) (h : init_h324m_packetizer f = (1, pak, f1)) :
    packetizeChecked extra f = packetizerLoopChecked (pak.max + 1 + extra) pak f1 := by
  unfold packetizeChecked
  simp only [h, one_ne_zero, if_false]

theorem packetizerLoopChecked_fault (n : Nat) (pak : h324m_packetizer) (f : ast_frame)
    (h : createInBounds pak f = false) :
    packetizerLoopChecked (n + 1) pak f = ([], none) := by
  rw [packetizerLoopChecked, h]
  simp

theorem packetizerLoopChecked_step (n : Nat) (pak pak1 : h324m_packetizer) (f f1 : ast_frame)
    (u : MediaFrame) (hb : createInBounds pak f = true)
    (h : create_h324m_frame pak f = (some u, pak1, f1)) :
    packetizerLoopChecked (n + 1) pak f =
      (u :: (packetizerLoopChecked n pak1 f1).1, (packetizerLoopChecked n pak1 f1).2) := by
  rw [packetizerLoopChecked, if_pos hb, h]

/-- What `init_h324m_packetizer` returns on the frame `F0 04 rest`. -/
theorem init_one_entry (rest : List Nat) :
    init_h324m_packetizer (amrVoiceFrame (0xF0 :: 0x04 :: rest)) =
      (1, ⟨0, 2, ((0xF0 :: 0x04 :: rest).length : Int), 0, 1⟩,
        ⟨AST_FRAME_VOICE, AST_FORMAT_AMR, ((0xF0 :: 0x04 :: rest).length : Int),
          0x04 :: 0x04 :: rest, 0⟩) := by
  have hc : tocContinues 0x04 = false := by decide
  have hamr : AST_FORMAT_AMR &&& AST_FORMAT_AMR ≠ 0 := by decide
  have hshift : shiftToc (0xF0 :: 0x04 :: rest) 1 = 0x04 :: 0x04 :: rest := by
    simp [shiftToc, List.range_succ]
  rw [init_amr (amrVoiceFrame (0xF0 :: 0x04 :: rest)) rfl hamr rfl]
  simp only [amrVoiceFrame, List.drop_succ_cons, List.drop_zero, List.takeWhile_cons, hc,
    List.length_nil, Bool.false_eq_true, if_false, Nat.add_zero, hshift]
  rw [if_neg (by simp only [List.length_cons]; omega)]

/-- C6 (AMR unit contents). `init_h324m_packetizer` accepts frames that do not
hold the sub-frames their TOC declares: for every payload `rest` of fewer than
12 bytes the AMR voice frame `F0 04 rest` (one TOC entry, mode 0, table length
12) is accepted with `max = 1`, and the first `create_h324m_frame` call hands
13 bytes from index 1 on to `FrameCreate`, a range that leaves the frame: the
unit cannot consist of the header byte and 12 payload bytes of the input
frame, which has only `rest` behind its TOC. -/
theorem C6_short_frame_unit_leaves_frame (rest : List Nat) (h : rest.length < 12) :
    (init_h324m_packetizer (amrVoiceFrame (0xF0 :: 0x04 :: rest))).1 = 1 ∧
    (init_h324m_packetizer (amrVoiceFrame (0xF0 :: 0x04 :: rest))).2.1.max = 1 ∧
    tocEntries (0xF0 :: 0x04 :: rest) = [0x04] ∧
    tocMode 0x04 ≤ 8 ∧ specAmrLength (tocMode 0x04) = 12 ∧
    amrPayload (0xF0 :: 0x04 :: rest) = rest ∧
    createInBounds (init_h324m_packetizer (amrVoiceFrame (0xF0 :: 0x04 :: rest))).2.1
      (init_h324m_packetizer (amrVoiceFrame (0xF0 :: 0x04 :: rest))).2.2 = false ∧
    packetizeChecked 0 (amrVoiceFrame (0xF0 :: 0x04 :: rest)) = ([], none) := by
  have hc : tocContinues 0x04 = false := by decide
  have hspec : specTocEntries (0xF0 :: 0x04 :: rest) = 1 := by
    simp [specTocEntries, hc, List.takeWhile_cons]
  have hm0 : tocMode 0x04 = 0 := by decide
  have hb0 : blockSizeUnsigned 0 = 12 := by decide
  have hamr : AST_FORMAT_AMR &&& AST_FORMAT_AMR ≠ 0 := by decide
  have hinit := init_one_entry rest
  have hget : (0x04 :: 0x04 :: rest).getD (0 + 0) 0 = 0x04 := rfl
  have hmod : (12 + 1) % 4294967296 = 13 := by norm_num
  have hin : createInBounds ⟨0, 2, ((0xF0 :: 0x04 :: rest).length : Int), 0, 1⟩
      ⟨AST_FRAME_VOICE, AST_FORMAT_AMR, ((0xF0 :: 0x04 :: rest).length : Int),
        0x04 :: 0x04 :: rest, 0⟩ = false := by
    rw [createInBounds_amr 0 2 0 1 AST_FORMAT_AMR 0 _ _ _ hamr (by decide), hget, hm0, hb0,
      hmod]
    simp only [decide_eq_false_iff_not, List.length_cons]
    omega
  refine ⟨?_, ?_, ?_, by decide, by decide, ?_, ?_, ?_⟩
  · rw [hinit]
  · rw [hinit]
  · unfold tocEntries
    rw [hspec]
    rfl
  · unfold amrPayload
    rw [hspec]
    rfl
  · rw [hinit]
    exact hin
  · rw [packetizeChecked_of_init _ 0 _ _ hinit]
    exact packetizerLoopChecked_fault _ _ _ hin

/-- Witness for C6: the 5-byte frame `F0 04 01 02 03` is accepted although only
3 bytes follow its TOC, and the range of its unit leaves the frame. -/
theorem C6_short_frame_unit_leaves_frame_witness :
    (init_h324m_packetizer (amrVoiceFrame (0xF0 :: 0x04 :: [1, 2, 3]))).1 = 1 ∧
    amrPayload (0xF0 :: 0x04 :: [1, 2, 3]) = [1, 2, 3] ∧
    packetizeChecked 0 (amrVoiceFrame (0xF0 :: 0x04 :: [1, 2, 3])) = ([], none) :=
  ⟨(C6_short_frame_unit_leaves_frame [1, 2, 3] (by decide)).1,
    (C6_short_frame_unit_leaves_frame [1, 2, 3] (by decide)).2.2.2.2.2.1,
    (C6_short_frame_unit_leaves_frame [1, 2, 3] (by decide)).2.2.2.2.2.2.2⟩

/-- What `init_h324m_packetizer` returns on the frame `F0 C8 04 rest`. -/
theorem init_reserved_then_valid (rest : List Nat) :
    init_h324m_packetizer (amrVoiceFrame (0xF0 :: 0xC8 :: 0x04 :: rest)) =
      (1, ⟨0, 3, ((0xF0 :: 0xC8 :: 0x04 :: rest).length : Int), 0, 2⟩,
        ⟨AST_FRAME_VOICE, AST_FORMAT_AMR, ((0xF0 :: 0xC8 :: 0x04 :: rest).length : Int),
          0xC8 :: 0x04 :: 0x04 :: rest, 0⟩) := by
  have hc1 : tocContinues 0xC8 = true := by decide
  have hc2 : tocContinues 0x04 = false := by decide
  have hamr : AST_FORMAT_AMR &&& AST_FORMAT_AMR ≠ 0 := by decide
  have hshift : shiftToc (0xF0 :: 0xC8 :: 0x04 :: rest) 2 = 0xC8 :: 0x04 :: 0x04 :: rest := by
    simp [shiftToc, List.range_succ]
  rw [init_amr (amrVoiceFrame (0xF0 :: 0xC8 :: 0x04 :: rest)) rfl hamr rfl]
  simp only [amrVoiceFrame, List.drop_succ_cons, List.drop_zero, List.takeWhile_cons, hc1, hc2,
    List.length_nil, List.length_cons, Bool.false_eq_true, if_true, if_false, Nat.zero_add,
    Nat.reduceAdd, hshift]
  rw [if_neg (by omega)]

/-- C8 (finite unit sequence). Not every one of the first `max` calls yields a
unit: for every `rest` the AMR voice frame `F0 C8 04 rest` (below 4 GiB) is
accepted with `max = 2`; the first call, on the entry of reserved mode 9,
yields a unit and moves `offset` by `0xFFFFFFFF` to 4294967298; the second
call, still before the end (`num = 1`), writes its header byte through
`offset[-1]` outside the frame, so the run ends there with one unit instead of
two. -/
theorem C8_second_call_leaves_frame (rest : List Nat) (h : rest.length ≤ 4294967294) :
    (init_h324m_packetizer (amrVoiceFrame (0xF0 :: 0xC8 :: 0x04 :: rest))).1 = 1 ∧
    (init_h324m_packetizer (amrVoiceFrame (0xF0 :: 0xC8 :: 0x04 :: rest))).2.1.max = 2 ∧
    createInBounds (init_h324m_packetizer (amrVoiceFrame (0xF0 :: 0xC8 :: 0x04 :: rest))).2.1
      (init_h324m_packetizer (amrVoiceFrame (0xF0 :: 0xC8 :: 0x04 :: rest))).2.2 = true ∧
    create_h324m_frame (init_h324m_packetizer (amrVoiceFrame (0xF0 :: 0xC8 :: 0x04 :: rest))).2.1
      (init_h324m_packetizer (amrVoiceFrame (0xF0 :: 0xC8 :: 0x04 :: rest))).2.2 =
      (some ⟨.audio, .CODEC_AMR, [], 0⟩,
        ⟨0, 4294967298, ((0xF0 :: 0xC8 :: 0x04 :: rest).length : Int), 1, 2⟩,
        ⟨AST_FRAME_VOICE, AST_FORMAT_AMR, ((0xF0 :: 0xC8 :: 0x04 :: rest).length : Int),
          0xC8 :: 0x04 :: 0x4C :: rest, 0⟩) ∧
    createInBounds ⟨0, 4294967298, ((0xF0 :: 0xC8 :: 0x04 :: rest).length : Int), 1, 2⟩
      ⟨AST_FRAME_VOICE, AST_FORMAT_AMR, ((0xF0 :: 0xC8 :: 0x04 :: rest).length : Int),
        0xC8 :: 0x04 :: 0x4C :: rest, 0⟩ = false ∧
    packetizeChecked 0 (amrVoiceFrame (0xF0 :: 0xC8 :: 0x04 :: rest)) =
      ([⟨.audio, .CODEC_AMR, [], 0⟩], none) := by
  have hamr : AST_FORMAT_AMR &&& AST_FORMAT_AMR ≠ 0 := by decide
  have hinit := init_reserved_then_valid rest
  have hm9 : tocMode 0xC8 = 9 := by decide
  have hb9 : blockSizeUnsigned 9 = 4294967295 := by decide
  have hm0 : tocMode 0x04 = 0 := by decide
  have hb0 : blockSizeUnsigned 0 = 12 := by decide
  have hget0 : (0xC8 :: 0x04 :: 0x04 :: rest).getD (0 + 0) 0 = 0xC8 := rfl
  have hget1 : (0xC8 :: 0x04 :: 0x4C :: rest).getD (0 + 1) 0 = 0x04 := rfl
  have hmod9 : (4294967295 + 1) % 4294967296 = 0 := by norm_num
  have hmod0 : (12 + 1) % 4294967296 = 13 := by norm_num
  have hin0 : createInBounds ⟨0, 3, ((0xF0 :: 0xC8 :: 0x04 :: rest).length : Int), 0, 2⟩
      ⟨AST_FRAME_VOICE, AST_FORMAT_AMR, ((0xF0 :: 0xC8 :: 0x04 :: rest).length : Int),
        0xC8 :: 0x04 :: 0x04 :: rest, 0⟩ = true := by
    rw [createInBounds_amr 0 3 0 2 AST_FORMAT_AMR 0 _ _ _ hamr (by decide), hget0, hm9, hb9,
      hmod9]
    simp only [decide_eq_true_eq, List.length_cons]
    omega
  have hstep : create_h324m_frame
      ⟨0, 3, ((0xF0 :: 0xC8 :: 0x04 :: rest).length : Int), 0, 2⟩
      ⟨AST_FRAME_VOICE, AST_FORMAT_AMR, ((0xF0 :: 0xC8 :: 0x04 :: rest).length : Int),
        0xC8 :: 0x04 :: 0x04 :: rest, 0⟩ =
      (some ⟨.audio, .CODEC_AMR, [], 0⟩,
        ⟨0, 4294967298, ((0xF0 :: 0xC8 :: 0x04 :: rest).length : Int), 1, 2⟩,
        ⟨AST_FRAME_VOICE, AST_FORMAT_AMR, ((0xF0 :: 0xC8 :: 0x04 :: rest).length : Int),
          0xC8 :: 0x04 :: 0x4C :: rest, 0⟩) := by
    rw [create_amr_step 0 3 0 2 AST_FORMAT_AMR 0 _ _ _ hamr (by decide), hget0, hm9, hb9, hmod9]
    have hset : (0xC8 :: 0x04 :: 0x04 :: rest).set (3 - 1) ((9 <<< 3) ||| 0x04) =
        0xC8 :: 0x04 :: 0x4C :: rest := by simp
    simp only [FrameCreate, hset, Nat.cast_zero, Int.toNat_zero, List.take_zero]
  have hin1 : createInBounds
      ⟨0, 4294967298, ((0xF0 :: 0xC8 :: 0x04 :: rest).length : Int), 1, 2⟩
      ⟨AST_FRAME_VOICE, AST_FORMAT_AMR, ((0xF0 :: 0xC8 :: 0x04 :: rest).length : Int),
        0xC8 :: 0x04 :: 0x4C :: rest, 0⟩ = false := by
    rw [createInBounds_amr 0 4294967298 1 2 AST_FORMAT_AMR 0 _ _ _ hamr (by decide), hget1,
      hm0, hb0, hmod0]
    simp only [decide_eq_false_iff_not, List.length_cons]
    omega
  refine ⟨?_, ?_, ?_, ?_, hin1, ?_⟩
  · rw [hinit]
  · rw [hinit]
  · rw [hinit]
    exact hin0
  · rw [hinit]
    exact hstep
  · rw [packetizeChecked_of_init _ 0 _ _ hinit,
      packetizerLoopChecked_step _ _ _ _ _ _ hin0 hstep,
      packetizerLoopChecked_fault _ _ _ hin1]

/-- Witness for C8: on the 15-byte frame `F0 C8 04` followed by 12 bytes
(`max = 2`) the run hands over one unit and ends in the second call. -/
theorem C8_second_call_leaves_frame_witness :
    (init_h324m_packetizer
      (amrVoiceFrame (0xF0 :: 0xC8 :: 0x04 :: List.replicate 12 0x55))).2.1.max = 2 ∧
    packetizeChecked 0 (amrVoiceFrame (0xF0 :: 0xC8 :: 0x04 :: List.replicate 12 0x55)) =
      ([⟨.audio, .CODEC_AMR, [], 0⟩], none) :=
  ⟨(C8_second_call_leaves_frame (List.replicate 12 0x55) (by decide)).2.1,
    (C8_second_call_leaves_frame (List.replicate 12 0x55) (by decide)).2.2.2.2.2⟩

end H324M
